import Mathlib

/-!
Verification of the SpinePRO Joint CAT engine (`assets/cat_engine.js`).

The JavaScript engine is shallowly embedded over the real numbers: JS
floating-point values are modelled as `ℝ`, `Math.exp` as `Real.exp`,
`Math.log` as `Real.log`, `Math.sqrt` as `Real.sqrt`.  JS arrays are
`List`s (out-of-bounds reads, which yield `undefined` and then `NaN`
in JS, are modelled by `List.getD` defaults only on paths the engine
never takes for well-formed banks).  JS objects keyed by strings are
association lists or functions.  Over `ℝ` every value is finite, so the
engine's `Number.isFinite` guards are always-true branches and are
noted where they occur.  Timestamps (`ts`) recorded on response log
entries are never read by any engine logic and are omitted from the
embedding; `console.warn` output is modelled by a `warnings` list on
the session so that "surfacing a warning to the caller" is expressible.
-/

namespace SpinePRO

/-- `Math.max(lo, Math.min(hi, x))`, the clamp pattern used throughout
the engine. -/
def clamp (lo hi x : ℝ) : ℝ := max lo (min hi x)

/-- `logistic` from the source: saturates to 1 above 35, to 0 below −35,
otherwise `1/(1+Math.exp(-x))`. -/
noncomputable def logistic (x : ℝ) : ℝ :=
  if x > 35 then 1
  else if x < -35 then 0
  else 1 / (1 + Real.exp (-x))

/-- An item of the bank: domain name, discrimination `a`, ordered
thresholds (the engine filters non-finite placeholders, which over `ℝ`
is the identity), and whether `higher_theta_means === 'better'`. -/
structure Item where
  domain : String
  discrimination : ℝ
  thresholds : List ℝ
  higherBetter : Bool

/-- The cumulative `P(Y ≥ k)` list built inside `grmCatProbs`:
`[1, σ(a(θ−b₀)), …, σ(a(θ−b_{K-2})), 0]`. -/
noncomputable def grmPge (theta a : ℝ) (b : List ℝ) : List ℝ :=
  1 :: (b.map (fun bk => logistic (a * (theta - bk))) ++ [0])

/-- `grmCatProbs`: category probabilities `P_k = Pge[k] − Pge[k+1]`. -/
noncomputable def grmCatProbs (theta a : ℝ) (b : List ℝ) : List ℝ :=
  List.zipWith (fun p q => p - q) (grmPge theta a b) (grmPge theta a b).tail

lemma logistic_nonneg (x : ℝ) : 0 ≤ logistic x := by
  unfold logistic
  split
  · norm_num
  · split
    · norm_num
    · positivity

lemma logistic_le_one (x : ℝ) : logistic x ≤ 1 := by
  unfold logistic
  split
  · norm_num
  · split
    · norm_num
    · rw [div_le_one (by positivity)]
      nlinarith [Real.exp_pos (-x)]

lemma logistic_mono : Monotone logistic := by
  intro x y hxy
  by_cases hx35 : x > 35
  · have hy35 : y > 35 := lt_of_lt_of_le hx35 hxy
    unfold logistic
    simp [hx35, hy35]
  · by_cases hy35 : y > 35
    · have h1 : logistic y = 1 := by unfold logistic; simp [hy35]
      rw [h1]
      exact logistic_le_one x
    · by_cases hxm : x < -35
      · have h0 : logistic x = 0 := by
          unfold logistic
          simp [hx35, if_neg (by linarith : ¬ x > 35), hxm]
        rw [h0]
        exact logistic_nonneg y
      · have hym : ¬ y < -35 := by
          intro hc
          exact hxm (lt_of_le_of_lt hxy hc)
        unfold logistic
        simp only [hx35, hy35, hxm, hym, if_false]
        apply div_le_div_of_nonneg_left (by norm_num) (by positivity)
        have : Real.exp (-y) ≤ Real.exp (-x) := Real.exp_le_exp.mpr (by linarith)
        linarith

/-- Telescoping: the sum of adjacent differences of `x :: l` is
`x - l.getLastD x`. -/
lemma sum_zipWith_sub_tail (l : List ℝ) (x : ℝ) :
    (List.zipWith (fun p q => p - q) (x :: l) l).sum = x - l.getLastD x := by
  induction l generalizing x with
  | nil => simp
  | cons y t ih =>
    simp only [List.zipWith, List.sum_cons, ih y, List.getLastD_cons]
    ring

/-- Adjacent differences of a `≥`-chained list are non-negative. -/
lemma zipWith_sub_tail_nonneg (l : List ℝ) (h : l.Chain' (fun p q => q ≤ p)) :
    ∀ p ∈ List.zipWith (fun p q => p - q) l l.tail, 0 ≤ p := by
  induction l with
  | nil => simp
  | cons x t ih =>
    cases t with
    | nil => simp
    | cons y u =>
      intro p hp
      simp only [List.tail_cons, List.zipWith, List.mem_cons] at hp
      rcases hp with hp | hp
      · have hxy : y ≤ x := (List.chain'_cons.mp h).1
        simpa [hp] using sub_nonneg.mpr hxy
      · exact ih (List.chain'_cons.mp h).2 p (by simpa using hp)

/-- The cumulative list `1 :: map σ ++ [0]` is descending when the
thresholds are sorted and `a ≥ 0`. -/
lemma grm_Pge_chain (theta a : ℝ) (b : List ℝ) (ha : 0 ≤ a)
    (hb : b.Sorted (· ≤ ·)) :
    List.Chain' (fun p q => q ≤ p) (grmPge theta a b) := by
  unfold grmPge
  induction b with
  | nil => simp
  | cons b0 bt ih =>
    have hsorted : bt.Sorted (· ≤ ·) := hb.of_cons
    simp only [List.map_cons, List.cons_append]
    rw [List.chain'_cons]
    constructor
    · exact logistic_le_one _
    · rcases ht : bt with _ | ⟨b1, bu⟩
      · simp [logistic_nonneg]
      · subst ht
        simp only [List.map_cons, List.cons_append]
        rw [List.chain'_cons]
        constructor
        · apply logistic_mono
          have hb01 : b0 ≤ b1 := (List.sorted_cons.mp hb).1 b1 (by simp)
          nlinarith
        · have := ih hsorted
          simp only [List.map_cons, List.cons_append, List.chain'_cons] at this
          exact this.2

/-- Claim C3 core lemma: every category probability is non-negative
and the probabilities sum exactly to 1 (hence within 1e-9). -/
theorem grmCatProbs_nonneg_sum (theta a : ℝ) (b : List ℝ) (ha : 0 < a)
    (hb : b.Sorted (· ≤ ·)) :
    (∀ p ∈ grmCatProbs theta a b, 0 ≤ p) ∧
      (grmCatProbs theta a b).sum = 1 := by
  constructor
  · intro p hp
    apply zipWith_sub_tail_nonneg _ (grm_Pge_chain theta a b ha.le hb)
    simpa [grmCatProbs] using hp
  · unfold grmCatProbs grmPge
    rw [List.tail_cons, sum_zipWith_sub_tail]
    have hlast : ∀ (l : List ℝ) (d : ℝ), (l ++ [0]).getLastD d = 0 := by
      intro l d
      simp [List.getLastD_eq_getLast?, List.getLast?_concat]
    rw [hlast]
    norm_num

/-- C3: for every theta, every discrimination `a > 0` and every ordered
(sorted) list of thresholds, the GRM category probabilities
`P_k = G_k − G_{k+1}` are all non-negative and their sum is within
1e-9 of 1 (over the real-number model the sum is exactly 1). -/
theorem claim_C3_grm_probs (theta a : ℝ) (b : List ℝ) (ha : 0 < a)
    (hb : b.Sorted (· ≤ ·)) :
    (∀ p ∈ grmCatProbs theta a b, 0 ≤ p) ∧
      |(grmCatProbs theta a b).sum - 1| ≤ 1e-9 := by
  obtain ⟨h1, h2⟩ := grmCatProbs_nonneg_sum theta a b ha hb
  refine ⟨h1, ?_⟩
  rw [h2]
  norm_num

/-- Witness for C3 at `theta = 0`, `a = 1`, thresholds `[0]`. -/
theorem claim_C3_grm_probs_witness :
    (0:ℝ) < 1 ∧ List.Sorted (· ≤ ·) [(0:ℝ)] ∧
      ((∀ p ∈ grmCatProbs 0 1 [0], 0 ≤ p) ∧
        |(grmCatProbs 0 1 [0]).sum - 1| ≤ 1e-9) :=
  ⟨zero_lt_one, List.sorted_singleton 0,
    claim_C3_grm_probs 0 1 [0] zero_lt_one (List.sorted_singleton 0)⟩

/-! ## Data model: bank, configuration, session -/

/-- One entry of the response log.  The JS record also stores a wall
clock timestamp `ts`, which no engine logic ever reads; it is omitted. -/
structure Rec where
  item_id : String
  response : ℤ
  domain : String
deriving DecidableEq

/-- `bank.cat_config`: fields that may be absent in JS are `Option`s,
with the `??` defaults applied at each use site exactly as the source
does. -/
structure Config where
  max_items : Option ℕ := none
  min_items : Option ℕ := none
  domains_min : Option ℕ := none
  global_SE_threshold : Option ℝ := none
  target_global_se : Option ℝ := none
  promis_SE_threshold : Option ℝ := none
  domain_penalty_lambda : Option ℝ := none
  domain_weights : String → Option ℝ := fun _ => none
  stop_if_bank_exhausted : Bool := false

/-- The item bank.  `items` is an association list (JS object in
insertion order); `pair_exclusion` models the optional
`bank.pair_exclusion_constraints` in its `{pairs: [...]}` form (the
alternate map-style form is not exercised by this repository). -/
structure Bank where
  domains : List String
  items : List (String × Item)
  prior_covariance : List (List ℝ)
  cat_config : Config
  pair_exclusion : Option (List (String × String)) := none

/-- A per-domain entry of the clinician-facing results object, for the
norms-absent path (norms lookup is a supplied capability per the spec;
with no norms the source returns `percentile = null` and the SD-cutoff
severity band). -/
structure DomainResult where
  domain : String
  theta : ℝ
  se : Option ℝ
  t_score : ℝ
  percentile : Option ℤ
  severity : String

/-- The results value built by `finish` (display-only fields `stem` and
the response-option label, which require display metadata absent from
the model, are reduced to the raw stored response index, exactly what
the source produces when an item has no `response_options`). -/
structure Results where
  total_items : ℕ
  stop_reason : Option String
  global_SE : Option ℝ
  domain_results : List DomainResult
  items_administered : List (String × String × ℤ)

/-- The session value.  `se` is position-aligned with `bank.domains`
(the JS object is keyed by domain name, created in that order);
`domain_counts` is a total function with default 0 (missing JS key);
`warnings` models `console.warn` output. -/
structure Session where
  theta_vec : List ℝ
  Sigma : List (List ℝ)
  se : List (Option ℝ)
  administered : List Rec
  remaining : List String
  domain_counts : String → ℕ
  is_finished : Bool
  stop_reason : Option String
  current_item_id : Option String
  constraints_adj : String → String → Bool
  constraints_raw : List (String × String)
  global_SE : Option ℝ := none
  results : Option Results := none
  warnings : List String := []

/-- `bank.items[id]` lookup. -/
def lookupItem (bank : Bank) (id : String) : Option Item :=
  (bank.items.find? (fun p => p.1 == id)).map (·.2)

/-- Stand-in for the `undefined` item a JS lookup of a missing id would
produce; only paths that crash in JS reach it. -/
def dummyItem : Item := ⟨"", 0, [], false⟩

/-- `domIndex[d]` built by `Object.fromEntries(domains.map((d,i)=>[d,i]))`:
the index of `d` in the domain list (`findIdx` returns the length when
absent, matching the out-of-range reads the JS `undefined` would cause). -/
def domIdx (bank : Bank) (d : String) : ℕ := bank.domains.findIdx (· == d)

/-- Matrix entry read `S[i][j]` (out-of-range ⇒ 0, a default taken only
on paths well-formed banks never reach). -/
def sigmaAt (S : List (List ℝ)) (i j : ℕ) : ℝ := (S.getD i []).getD j 0

/-! ## Item response model: derivatives and Fisher information -/

/-- The `dPge` list of `grmCatDerivs`: derivative `a·L·(1−L)` of each
cumulative curve, with 0 sentinels at both ends. -/
noncomputable def grmdPge (theta a : ℝ) (b : List ℝ) : List ℝ :=
  0 :: (b.map (fun bk =>
    a * logistic (a * (theta - bk)) * (1 - logistic (a * (theta - bk)))) ++ [0])

/-- `grmCatDerivs`: category probabilities renormalised by
`max(1e-12, p)/s` with `s` the raw sum (forced to 1 when ≤ 0), and raw
derivative differences. -/
noncomputable def grmCatDerivs (theta a : ℝ) (b : List ℝ) : List ℝ × List ℝ :=
  let probs := List.zipWith (fun p q => p - q) (grmPge theta a b) (grmPge theta a b).tail
  let dprobs := List.zipWith (fun p q => p - q) (grmdPge theta a b) (grmdPge theta a b).tail
  let s0 := probs.sum
  let s := if s0 ≤ 0 then 1 else s0
  (probs.map (fun p => max 1e-12 p / s), dprobs)

/-- `itemInfo`: Fisher information `Σ pk·(dp/pk)²` with `pk` floored at
1e-12, the total floored at 1e-6.  (The JS filters non-finite
thresholds first; over `ℝ` that filter is the identity.) -/
noncomputable def itemInfo (theta : ℝ) (it : Item) : ℝ :=
  let pd := grmCatDerivs theta it.discrimination it.thresholds
  let info := (List.zipWith (fun p dp =>
      max 1e-12 p * (dp / max 1e-12 p) * (dp / max 1e-12 p)) pd.1 pd.2).sum
  max 1e-6 info

lemma itemInfo_pos (theta : ℝ) (it : Item) : 0 < itemInfo theta it :=
  lt_of_lt_of_le (by norm_num) (le_max_left _ _)

/-! ## Posterior state tracker: Sherman–Morrison rank-one downdate -/

/-- `updatePosteriorCov`: `Sigma[i][j] -= (info/denom)·col[i]·col[j]`
for `i, j < D`, where `col` is column `d` of the *pre-update* Sigma
(the JS copies it into `Sigma_col` before the loops) and
`denom = 1 + info·Sigma[d][d]`. -/
noncomputable def updatePosteriorCov (bank : Bank) (s : Session) (it : Item) :
    Session :=
  let D := bank.domains.length
  let d := domIdx bank it.domain
  let th := s.theta_vec.getD d 0
  let info := itemInfo th it
  let col := fun i => sigmaAt s.Sigma i d
  let denom := 1 + info * sigmaAt s.Sigma d d
  let factor := info / denom
  { s with Sigma := s.Sigma.mapIdx (fun i row =>
      if i < D then
        row.mapIdx (fun j v => if j < D then v - factor * col i * col j else v)
      else row) }

lemma getElem?_mapIdx {α β : Type} (l : List α) (f : ℕ → α → β) (i : ℕ) :
    (l.mapIdx f)[i]? = (l[i]?).map (f i) := by
  induction l generalizing f i with
  | nil => simp
  | cons x t ih =>
    rw [List.mapIdx_cons]
    cases i with
    | zero => simp
    | succ n => simpa using ih (fun k => f (k + 1)) n

lemma getD_mapIdx {α : Type} (l : List α) (f : ℕ → α → α) (i : ℕ) (d : α) :
    (l.mapIdx f).getD i d = if i < l.length then f i (l.getD i d) else d := by
  rw [List.getD_eq_getElem?_getD, List.getD_eq_getElem?_getD, getElem?_mapIdx]
  rcases h : l[i]? with _ | x
  · have hlen : l.length ≤ i := by
      by_contra hc
      rw [List.getElem?_eq_getElem (by omega)] at h
      exact Option.noConfusion h
    rw [if_neg (by omega)]
    simp
  · have hlen : i < l.length := by
      by_contra hc
      rw [List.getElem?_eq_none (by omega)] at h
      exact Option.noConfusion h
    rw [if_pos hlen]
    simp

lemma getD_row_mem (S : List (List ℝ)) (i : ℕ) (hi : i < S.length) :
    S.getD i [] ∈ S := by
  rw [List.getD_eq_getElem _ _ hi]
  exact List.getElem_mem hi

/-- Entry formula for the Sherman–Morrison downdate on a rectangular
`D × D` Sigma. -/
lemma sigmaAt_updatePosteriorCov (bank : Bank) (s : Session) (it : Item)
    (hlen : s.Sigma.length = bank.domains.length)
    (hrow : ∀ row ∈ s.Sigma, row.length = bank.domains.length) :
    ∀ i j, sigmaAt (updatePosteriorCov bank s it).Sigma i j =
      (if i < bank.domains.length ∧ j < bank.domains.length then
        sigmaAt s.Sigma i j -
          itemInfo (s.theta_vec.getD (domIdx bank it.domain) 0) it /
            (1 + itemInfo (s.theta_vec.getD (domIdx bank it.domain) 0) it *
              sigmaAt s.Sigma (domIdx bank it.domain) (domIdx bank it.domain)) *
            sigmaAt s.Sigma i (domIdx bank it.domain) *
            sigmaAt s.Sigma j (domIdx bank it.domain)
      else sigmaAt s.Sigma i j) := by
  intro i j
  by_cases hi : i < s.Sigma.length
  · have hiD : i < bank.domains.length := hlen ▸ hi
    have hrowlen : (s.Sigma.getD i []).length = bank.domains.length :=
      hrow _ (getD_row_mem s.Sigma i hi)
    by_cases hj : j < (s.Sigma.getD i []).length
    · have hjD : j < bank.domains.length := hrowlen ▸ hj
      have hjj : j < (s.Sigma[i]).length := by
        rw [← List.getD_eq_getElem s.Sigma [] hi]
        exact hj
      simp [updatePosteriorCov, sigmaAt, getD_mapIdx, hi, hiD, hj, hjD,
        List.getElem?_eq_getElem hjj]
    · have hjD : ¬ j < bank.domains.length := fun hc => hj (by omega)
      have hz : (s.Sigma.getD i []).getD j 0 = 0 :=
        List.getD_eq_default _ _ (by omega)
      simp [updatePosteriorCov, sigmaAt, getD_mapIdx, hi, hiD, hj, hjD, hz]
  · have hiD : ¬ i < bank.domains.length := fun hc => hi (by omega)
    have hz : s.Sigma.getD i [] = [] := List.getD_eq_default _ _ (by omega)
    simp [updatePosteriorCov, sigmaAt, getD_mapIdx, hi, hiD, hz]

/-- C2: if Sigma is a symmetric `D × D` matrix with non-negative
diagonal (the spec assumes positive), the Sherman–Morrison downdate
performed when absorbing a response keeps it symmetric and no diagonal
entry increases (the information `I` is floored at 1e-6 > 0). -/
theorem claim_C2_cov_downdate (bank : Bank) (s : Session) (it : Item)
    (hlen : s.Sigma.length = bank.domains.length)
    (hrow : ∀ row ∈ s.Sigma, row.length = bank.domains.length)
    (hsym : ∀ i j, sigmaAt s.Sigma i j = sigmaAt s.Sigma j i)
    (hdiag : ∀ i, 0 ≤ sigmaAt s.Sigma i i) :
    (∀ i j, sigmaAt (updatePosteriorCov bank s it).Sigma i j =
      sigmaAt (updatePosteriorCov bank s it).Sigma j i) ∧
    (∀ i, sigmaAt (updatePosteriorCov bank s it).Sigma i i ≤
      sigmaAt s.Sigma i i) := by
  have hfac : 0 ≤
      itemInfo (s.theta_vec.getD (domIdx bank it.domain) 0) it /
        (1 + itemInfo (s.theta_vec.getD (domIdx bank it.domain) 0) it *
          sigmaAt s.Sigma (domIdx bank it.domain) (domIdx bank it.domain)) := by
    have hI := itemInfo_pos (s.theta_vec.getD (domIdx bank it.domain) 0) it
    have hdd := hdiag (domIdx bank it.domain)
    positivity
  constructor
  · intro i j
    rw [sigmaAt_updatePosteriorCov bank s it hlen hrow i j,
        sigmaAt_updatePosteriorCov bank s it hlen hrow j i]
    by_cases hij : i < bank.domains.length ∧ j < bank.domains.length
    · rw [if_pos hij, if_pos ⟨hij.2, hij.1⟩, hsym i j]
      ring
    · have hji : ¬ (j < bank.domains.length ∧ i < bank.domains.length) := by
        intro hc
        exact hij ⟨hc.2, hc.1⟩
      rw [if_neg hij, if_neg hji, hsym i j]
  · intro i
    rw [sigmaAt_updatePosteriorCov bank s it hlen hrow i i]
    by_cases hii : i < bank.domains.length ∧ i < bank.domains.length
    · rw [if_pos hii]
      have hsq : 0 ≤
          sigmaAt s.Sigma i (domIdx bank it.domain) *
            sigmaAt s.Sigma i (domIdx bank it.domain) := mul_self_nonneg _
      nlinarith
    · rw [if_neg hii]

/-- A concrete single-domain, single-item test bank used by witnesses:
domain `Fatigue`, one item with `a = 1`, one threshold at 0, no
polarity reversal, prior covariance `[[1]]`. -/
def bank1 : Bank where
  domains := ["Fatigue"]
  items := [("I1", ⟨"Fatigue", 1, [0], false⟩)]
  prior_covariance := [[1]]
  cat_config := {}

/-- A concrete fresh session over `bank1` used by witnesses. -/
def sess1 : Session where
  theta_vec := [0]
  Sigma := [[1]]
  se := [none]
  administered := []
  remaining := ["I1"]
  domain_counts := fun _ => 0
  is_finished := false
  stop_reason := none
  current_item_id := some "I1"
  constraints_adj := fun _ _ => false
  constraints_raw := []

lemma sigmaAt_single (x : ℝ) (i j : ℕ) :
    sigmaAt [[x]] i j = if i = 0 ∧ j = 0 then x else 0 := by
  unfold sigmaAt
  match i, j with
  | 0, 0 => simp
  | 0, j + 1 => simp
  | i + 1, j => simp

/-- Witness for C2: the concrete 1×1 session `sess1` with
`Sigma = [[1]]` satisfies all hypotheses and the conclusion. -/
theorem claim_C2_cov_downdate_witness :
    sess1.Sigma.length = bank1.domains.length ∧
    (∀ row ∈ sess1.Sigma, row.length = bank1.domains.length) ∧
    (∀ i j, sigmaAt sess1.Sigma i j = sigmaAt sess1.Sigma j i) ∧
    (∀ i, 0 ≤ sigmaAt sess1.Sigma i i) ∧
    ((∀ i j, sigmaAt (updatePosteriorCov bank1 sess1 ⟨"Fatigue", 1, [0], false⟩).Sigma i j =
      sigmaAt (updatePosteriorCov bank1 sess1 ⟨"Fatigue", 1, [0], false⟩).Sigma j i) ∧
    (∀ i, sigmaAt (updatePosteriorCov bank1 sess1 ⟨"Fatigue", 1, [0], false⟩).Sigma i i ≤
      sigmaAt sess1.Sigma i i)) := by
  have hlen : sess1.Sigma.length = bank1.domains.length := rfl
  have hrow : ∀ row ∈ sess1.Sigma, row.length = bank1.domains.length := by
    intro row hr
    have : row = [1] := by simpa [sess1] using hr
    rw [this]
    rfl
  have hsym : ∀ i j, sigmaAt sess1.Sigma i j = sigmaAt sess1.Sigma j i := by
    intro i j
    show sigmaAt [[1]] i j = sigmaAt [[1]] j i
    rw [sigmaAt_single, sigmaAt_single]
    by_cases h : i = 0 ∧ j = 0
    · rw [if_pos h, if_pos ⟨h.2, h.1⟩]
    · rw [if_neg h, if_neg (fun hc => h ⟨hc.2, hc.1⟩)]
  have hdiag : ∀ i, 0 ≤ sigmaAt sess1.Sigma i i := by
    intro i
    show 0 ≤ sigmaAt [[1]] i i
    rw [sigmaAt_single]
    split
    · norm_num
    · exact le_refl 0
  exact ⟨hlen, hrow, hsym, hdiag,
    claim_C2_cov_downdate bank1 sess1 ⟨"Fatigue", 1, [0], false⟩ hlen hrow hsym hdiag⟩

/-! ## Standard errors and termination policy -/

/-- `updateSE`: for every domain index `i < D`,
`se[i] = sqrt(max(1e-12, Sigma[i][i]))`. -/
noncomputable def updateSE (bank : Bank) (s : Session) : Session :=
  { s with se := List.ofFn (fun i : Fin bank.domains.length =>
      some (Real.sqrt (max 1e-12 (sigmaAt s.Sigma i i)))) }

/-- `globalSE`: RMS of the numeric per-domain standard errors, `none`
(JS `null`) when no numeric entry exists. -/
noncomputable def globalSE (s : Session) : Option ℝ :=
  let ses := s.se.reduceOption
  if ses.isEmpty then none
  else some (Real.sqrt ((ses.map (fun v => v * v)).sum / ses.length))

/-- Item ids already administered. -/
def askedIds (s : Session) : List String := s.administered.map (·.item_id)

/-- `eligibleCandidates`: remaining items minus those excluded by
`bank.pair_exclusion_constraints` against an already-asked item. -/
def eligibleCandidates (bank : Bank) (s : Session) : List String :=
  match bank.pair_exclusion with
  | none => s.remaining
  | some pairs =>
    s.remaining.filter (fun id =>
      !((askedIds s).any (fun a =>
        pairs.any (fun p => (p.1 == a && p.2 == id) || (p.1 == id && p.2 == a)))))

/-- The hard-coded SRS domain group of `checkStop`. -/
def srsDomains : List String :=
  ["SRS_Pain", "SRS_Function", "SRS_Self_Image", "SRS_Mental_Health", "SRS_Satisfaction"]

/-- The hard-coded PROMIS domain group of `checkStop`. -/
def promisDomains : List String :=
  ["Physical_Function", "Participation", "Fatigue", "Anxiety", "Depression"]

/-- The hard-coded `min_items_by_domain` table with its `?? 1` default:
`Participation ↦ 2`, every other listed domain `↦ 1`. -/
def minItemsByDomain (d : String) : ℕ := if d == "Participation" then 2 else 1

/-- `s.se[d]` looked up by domain name (the JS `se` object is keyed by
domain name in `bank.domains` order; a missing key is `none`). -/
def seByName (bank : Bank) (s : Session) (d : String) : Option ℝ :=
  (bank.domains.findIdx? (· == d)).bind (fun i => s.se.getD i none)

open Classical in
/-- `checkStop`: the ordered stop cascade.  Returns
`(stop, reason)`. -/
noncomputable def checkStop (bank : Bank) (s : Session) : Bool × Option String :=
  let cfg := bank.cat_config
  let n := s.administered.length
  let maxItems := cfg.max_items.getD 18
  let minItems := cfg.min_items.getD 0
  let srs_min_met := srsDomains.all (fun d => minItemsByDomain d ≤ s.domain_counts d)
  let promis_min_met :=
    promisDomains.all (fun d => minItemsByDomain d ≤ s.domain_counts d)
  if n < minItems then (false, none)
  else if (∃ dm, cfg.domains_min = some dm ∧
            (s.administered.map (·.domain)).dedup.length < dm) then
    (if maxItems ≤ n then (true, some "max_items") else (false, none))
  else if ¬ (srs_min_met && promis_min_met) then
    (if maxItems ≤ n then (true, some "max_items") else (false, none))
  else
    let thr_all := cfg.global_SE_threshold.getD (cfg.target_global_se.getD 0.35)
    let gse_all := globalSE s
    let promis_ses := promisDomains.filterMap (fun d => seByName bank s d)
    let gse_promis :=
      if promis_ses.isEmpty then (none : Option ℝ)
      else some (Real.sqrt ((promis_ses.map (fun v => v * v)).sum / promis_ses.length))
    let thr_promis := cfg.promis_SE_threshold.getD thr_all
    if (∃ g, gse_all = some g ∧ g ≤ thr_all) then
      (true, some "precision_reached_all_domains")
    else if (∃ g, gse_promis = some g ∧ g ≤ thr_promis) then
      (true, some "precision_reached_promis")
    else if maxItems ≤ n then (true, some "max_items")
    else if cfg.stop_if_bank_exhausted = true ∧ eligibleCandidates bank s = [] then
      (true, some "bank_exhausted")
    else (false, none)

/-- Any list of reals all ≥ 1e-6 has RMS ≥ 1e-6. -/
lemma rms_floor (l : List ℝ) (h : ∀ v ∈ l, 1e-6 ≤ v) (hne : l ≠ []) :
    1e-6 ≤ Real.sqrt ((l.map (fun v => v * v)).sum / l.length) := by
  have hsum : (l.length : ℝ) * 1e-12 ≤ (l.map (fun v => v * v)).sum := by
    induction l with
    | nil => simp
    | cons x t ih =>
      have hx : 1e-6 ≤ x := h x (by simp)
      have hxx : (1e-12 : ℝ) ≤ x * x := by nlinarith
      have ht : (t.length : ℝ) * 1e-12 ≤ (t.map (fun v => v * v)).sum := by
        rcases t with _ | ⟨y, u⟩
        · simp
        · exact ih (fun v hv => h v (by simp [hv])) (by simp)
      simp only [List.map_cons, List.sum_cons, List.length_cons]
      push_cast
      linarith
  have hlen : 0 < (l.length : ℝ) := by
    have : l.length ≠ 0 := fun hc => hne (List.length_eq_zero.mp hc)
    positivity
  have hdiv : (1e-12 : ℝ) ≤ (l.map (fun v => v * v)).sum / l.length := by
    rw [le_div_iff hlen]
    linarith
  have h6 : (1e-6 : ℝ) = Real.sqrt 1e-12 := by
    rw [show (1e-12 : ℝ) = 1e-6 ^ 2 by norm_num]
    rw [Real.sqrt_sq (by norm_num)]
  rw [h6]
  exact Real.sqrt_le_sqrt hdiv

/-- Every numeric global-SE value over a session whose `se` entries are
all ≥ 1e-6 is itself ≥ 1e-6. -/
lemma globalSE_floor (s : Session)
    (hse : ∀ o ∈ s.se, ∀ v, o = some v → 1e-6 ≤ v) :
    ∀ g, globalSE s = some g → 1e-6 ≤ g := by
  intro g hg
  unfold globalSE at hg
  by_cases hne : s.se.reduceOption.isEmpty
  · simp [hne] at hg
  · rw [if_neg hne] at hg
    have hval : ∀ v ∈ s.se.reduceOption, (1e-6 : ℝ) ≤ v := by
      intro v hv
      have : some v ∈ s.se := List.reduceOption_mem_iff.mp hv
      exact hse _ this v rfl
    have := rms_floor s.se.reduceOption hval
      (fun hc => hne (by simp [hc]))
    rw [← Option.some_inj.mp hg] at *
    exact Option.some_inj.mp hg ▸ this

lemma sqrt_max_floor (x : ℝ) : 1e-6 ≤ Real.sqrt (max 1e-12 x) := by
  have h6 : (1e-6 : ℝ) = Real.sqrt 1e-12 := by
    rw [show (1e-12 : ℝ) = 1e-6 ^ 2 by norm_num]
    rw [Real.sqrt_sq (by norm_num)]
  rw [h6]
  exact Real.sqrt_le_sqrt (le_max_left _ _)

lemma updateSE_entries (bank : Bank) (s : Session) :
    ∀ o ∈ (updateSE bank s).se, ∃ v, o = some v ∧ 1e-6 ≤ v := by
  intro o ho
  unfold updateSE at ho
  simp only [List.mem_ofFn] at ho
  obtain ⟨i, hi⟩ := ho
  exact ⟨Real.sqrt (max 1e-12 (sigmaAt s.Sigma i i)), hi.symm, sqrt_max_floor _⟩

lemma seByName_mem (bank : Bank) (s : Session) (d : String) (v : ℝ)
    (h : seByName bank s d = some v) : some v ∈ s.se := by
  unfold seByName at h
  rcases hf : bank.domains.findIdx? (· == d) with _ | i
  · rw [hf] at h
    exact Option.noConfusion h
  · rw [hf, Option.some_bind] at h
    by_cases hi : i < s.se.length
    · rw [List.getD_eq_getElem _ _ hi] at h
      exact h ▸ List.getElem_mem hi
    · rw [List.getD_eq_default _ _ (by omega)] at h
      exact Option.noConfusion h

/-- With every stored SE ≥ 1e-6, the all-domain precision rule at
threshold 0 can never fire. -/
lemma noPrecisionAll (s : Session)
    (hse : ∀ o ∈ s.se, ∀ v, o = some v → 1e-6 ≤ v) :
    ¬ ∃ g, globalSE s = some g ∧ g ≤ (0:ℝ) := by
  rintro ⟨g, hg, hle⟩
  have := globalSE_floor s hse g hg
  norm_num at this
  linarith

/-- With every stored SE ≥ 1e-6, the PROMIS-group precision rule at
threshold 0 can never fire. -/
lemma noPrecisionPromis (bank : Bank) (s : Session)
    (hse : ∀ o ∈ s.se, ∀ v, o = some v → 1e-6 ≤ v) :
    ¬ ∃ g, (if (promisDomains.filterMap (seByName bank s)).isEmpty then (none : Option ℝ)
        else some (Real.sqrt (((promisDomains.filterMap (seByName bank s)).map
          (fun v => v * v)).sum / (promisDomains.filterMap (seByName bank s)).length))) =
      some g ∧ g ≤ (0:ℝ) := by
  rintro ⟨g, hg, hle⟩
  have hg_promis : ∀ v ∈ promisDomains.filterMap (seByName bank s), 1e-6 ≤ v := by
    intro v hv
    obtain ⟨d, _, hd⟩ := List.mem_filterMap.mp hv
    exact hse _ (seByName_mem bank s d v hd) v rfl
  by_cases hpe : (promisDomains.filterMap (seByName bank s)).isEmpty
  · rw [if_pos hpe] at hg
    exact Option.noConfusion hg
  · rw [if_neg hpe] at hg
    have hfl := rms_floor (promisDomains.filterMap (seByName bank s)) hg_promis
      (fun hc => hpe (by simp [hc]))
    rw [Option.some_inj.mp hg] at hfl
    have hpos : (0:ℝ) < 1e-6 := by norm_num
    linarith

/-- C10: every reported per-domain standard error is `some v` with
`v ≥ 1e-6` (the diagonal is floored at 1e-12 before the square root);
with at least one domain the RMS global SE is strictly positive; a
precision threshold of 0 can therefore never fire either precision
stop rule. -/
theorem claim_C10_se_floor (bank : Bank) (s : Session)
    (hD : 0 < bank.domains.length) :
    (∀ o ∈ (updateSE bank s).se, ∃ v, o = some v ∧ 1e-6 ≤ v) ∧
    (∃ g, globalSE (updateSE bank s) = some g ∧ 0 < g) ∧
    (∀ s2 : Session,
      (∀ o ∈ s2.se, ∀ v, o = some v → 1e-6 ≤ v) →
      bank.cat_config.global_SE_threshold = some 0 →
      bank.cat_config.promis_SE_threshold = none →
      (checkStop bank s2).2 ≠ some "precision_reached_all_domains" ∧
      (checkStop bank s2).2 ≠ some "precision_reached_promis") := by
  refine ⟨updateSE_entries bank s, ?_, ?_⟩
  · -- global SE exists and is positive
    have hmem : some (Real.sqrt (max 1e-12 (sigmaAt s.Sigma 0 0))) ∈
        (updateSE bank s).se := by
      unfold updateSE
      simp only [List.mem_ofFn]
      exact ⟨⟨0, hD⟩, rfl⟩
    have hred : Real.sqrt (max 1e-12 (sigmaAt s.Sigma 0 0)) ∈
        (updateSE bank s).se.reduceOption := List.reduceOption_mem_iff.mpr hmem
    have hne : ¬ (updateSE bank s).se.reduceOption.isEmpty := by
      intro hc
      rw [List.isEmpty_iff] at hc
      rw [hc] at hred
      exact List.not_mem_nil _ hred
    have hfloor : ∀ o ∈ (updateSE bank s).se, ∀ v, o = some v → 1e-6 ≤ v := by
      intro o ho v hv
      obtain ⟨w, hw, hwf⟩ := updateSE_entries bank s o ho
      rw [hv] at hw
      rw [Option.some_inj.mp hw]
      exact hwf
    refine ⟨Real.sqrt (((updateSE bank s).se.reduceOption.map (fun v => v * v)).sum /
      (updateSE bank s).se.reduceOption.length), ?_, ?_⟩
    · unfold globalSE
      rw [if_neg hne]
    · have := globalSE_floor (updateSE bank s) hfloor
        (Real.sqrt (((updateSE bank s).se.reduceOption.map (fun v => v * v)).sum /
          (updateSE bank s).se.reduceOption.length))
        (by unfold globalSE; rw [if_neg hne])
      linarith
  · intro s2 hse hthr hpthr
    simp only [checkStop, hthr, hpthr, Option.getD_some, Option.getD_none]
    rw [if_neg (noPrecisionAll s2 hse), if_neg (noPrecisionPromis bank s2 hse)]
    split_ifs
    all_goals simp

/-- Witness for C10 over the concrete one-domain `bank1`/`sess1`. -/
theorem claim_C10_se_floor_witness :
    0 < bank1.domains.length ∧
    ((∀ o ∈ (updateSE bank1 sess1).se, ∃ v, o = some v ∧ 1e-6 ≤ v) ∧
    (∃ g, globalSE (updateSE bank1 sess1) = some g ∧ 0 < g) ∧
    (∀ s2 : Session,
      (∀ o ∈ s2.se, ∀ v, o = some v → 1e-6 ≤ v) →
      bank1.cat_config.global_SE_threshold = some 0 →
      bank1.cat_config.promis_SE_threshold = none →
      (checkStop bank1 s2).2 ≠ some "precision_reached_all_domains" ∧
      (checkStop bank1 s2).2 ≠ some "precision_reached_promis")) :=
  ⟨by simp [bank1], claim_C10_se_floor bank1 sess1 (by simp [bank1])⟩

/-- C4 (amended): with `max_items = 5`, `min_items ≤ 5`, precision
thresholds 0 (unreachable since all SEs are ≥ 1e-6) and no
exhaustion-stop, `checkStop` continues strictly below 5 items and stops
with reason `"max_items"` exactly from 5 on; and in general a stop is
forced whenever `administered ≥ max(min_items, max_items)` (the reason
may be a precision reason if one fires first, and `n ≥ min_items` is
needed because rule (a) precedes the hard cap). -/
theorem claim_C4_max_items (bank : Bank) (s : Session)
    (hmax : bank.cat_config.max_items = some 5)
    (hmin : bank.cat_config.min_items.getD 0 ≤ 5)
    (hthr : bank.cat_config.global_SE_threshold = some 0)
    (hpthr : bank.cat_config.promis_SE_threshold = none)
    (hexh : bank.cat_config.stop_if_bank_exhausted = false)
    (hse : ∀ o ∈ s.se, ∀ v, o = some v → 1e-6 ≤ v) :
    (checkStop bank s =
      if 5 ≤ s.administered.length then (true, some "max_items")
      else (false, none)) ∧
    (∀ (bank2 : Bank) (s2 : Session),
      bank2.cat_config.max_items.getD 18 ≤ s2.administered.length →
      bank2.cat_config.min_items.getD 0 ≤ s2.administered.length →
      (checkStop bank2 s2).1 = true) := by
  constructor
  · simp only [checkStop, hmax, hthr, hpthr, hexh, Option.getD_some, Option.getD_none]
    rw [if_neg (noPrecisionAll s hse), if_neg (noPrecisionPromis bank s hse)]
    split_ifs
    all_goals first | rfl | omega | simp_all
  · intro bank2 s2 hmax2 hmin2
    simp only [checkStop]
    split_ifs
    all_goals try rfl
    all_goals try omega
    all_goals (split <;> rfl)

/-- Bank for the C4 counterexample: `min_items = 6 > max_items = 5`. -/
def bankC4 : Bank where
  domains := ["Fatigue"]
  items := [("I1", ⟨"Fatigue", 1, [0], false⟩)]
  prior_covariance := [[1]]
  cat_config :=
    { max_items := some 5, min_items := some 6, global_SE_threshold := some 0 }

/-- Session with 5 administered items for the C4 counterexample. -/
def sessC4 : Session where
  theta_vec := [0]
  Sigma := [[1]]
  se := [some 1]
  administered := List.replicate 5 ⟨"X", 0, "Fatigue"⟩
  remaining := ["I1"]
  domain_counts := fun _ => 0
  is_finished := false
  stop_reason := none
  current_item_id := none
  constraints_adj := fun _ _ => false
  constraints_raw := []

/-- C4 counterexample: `administered = 5 ≥ max_items = 5`, yet
`checkStop` does **not** stop (rule (a), `n < min_items`, fires first
when `min_items = 6`): "administered ≥ max_items always forces a stop
with that reason" is false as stated. -/
theorem claim_C4_counterexample :
    bankC4.cat_config.max_items.getD 18 ≤ sessC4.administered.length ∧
    checkStop bankC4 sessC4 = (false, none) := by
  constructor
  · simp [bankC4, sessC4]
  · simp only [checkStop]
    rw [if_pos]
    simp [bankC4, sessC4]

/-- Witness for C4 over a concrete bank with `max_items = 5`,
thresholds 0, and a 5-item session. -/
def bankC4W : Bank where
  domains := ["Fatigue"]
  items := [("I1", ⟨"Fatigue", 1, [0], false⟩)]
  prior_covariance := [[1]]
  cat_config :=
    { max_items := some 5, global_SE_threshold := some 0 }

theorem claim_C4_max_items_witness :
    bankC4W.cat_config.max_items = some 5 ∧
    bankC4W.cat_config.min_items.getD 0 ≤ 5 ∧
    bankC4W.cat_config.global_SE_threshold = some 0 ∧
    bankC4W.cat_config.promis_SE_threshold = none ∧
    bankC4W.cat_config.stop_if_bank_exhausted = false ∧
    (∀ o ∈ sessC4.se, ∀ v, o = some v → 1e-6 ≤ v) ∧
    ((checkStop bankC4W sessC4 =
      if 5 ≤ sessC4.administered.length then (true, some "max_items")
      else (false, none)) ∧
    (∀ (bank2 : Bank) (s2 : Session),
      bank2.cat_config.max_items.getD 18 ≤ s2.administered.length →
      bank2.cat_config.min_items.getD 0 ≤ s2.administered.length →
      (checkStop bank2 s2).1 = true)) := by
  have hse : ∀ o ∈ sessC4.se, ∀ v, o = some v → 1e-6 ≤ v := by
    intro o ho v hv
    have : o = some 1 := by simpa [sessC4] using ho
    rw [this] at hv
    rw [← Option.some_inj.mp hv]
    norm_num
  exact ⟨rfl, by norm_num [bankC4W], rfl, rfl, rfl, hse,
    claim_C4_max_items bankC4W sessC4 rfl (by norm_num [bankC4W]) rfl rfl rfl hse⟩

/-! ## Selection policy -/

/-- `coverageNeeded`: domains with no administered item yet. -/
def coverageNeeded (bank : Bank) (s : Session) : List String :=
  bank.domains.filter (fun d => s.domain_counts d = 0)

/-- `allowed(id)` inside `selectNextItem`: `id` has no excluded partner
among the already-administered item ids. -/
def allowedId (s : Session) (id : String) : Bool :=
  (askedIds s).all (fun prev => !(s.constraints_adj id prev))

open Classical in
/-- The A-optimal gain minus domain-balance penalty computed for one
candidate item in the selection loop. -/
noncomputable def itemScore (bank : Bank) (s : Session) (id : String) : ℝ :=
  let it := (lookupItem bank id).getD dummyItem
  let d := domIdx bank it.domain
  let th := s.theta_vec.getD d 0
  let info := itemInfo th it
  let D := bank.domains.length
  let colSq := ((List.range D).map
    (fun i => sigmaAt s.Sigma i d * sigmaAt s.Sigma i d)).sum
  let denom := 1 + info * sigmaAt s.Sigma d d
  let gain := info * colSq / denom
  let cfg := bank.cat_config
  let lam := cfg.domain_penalty_lambda.getD 0.5
  let count := s.domain_counts it.domain
  let w := (cfg.domain_weights it.domain).getD 1
  let penalty0 := lam * ((count : ℝ) * count) / max 0.25 w
  let penalty :=
    if count = 0 then penalty0 - 3
    else if count = 1 then penalty0 - 1.5
    else if count = 2 ∧ it.domain.startsWith "SRS_" then penalty0 - 0.5
    else penalty0
  gain - penalty

open Classical in
/-- The strict-max / tie-break fold of `selectNextItem`.  State:
`(bestId, bestScore, rng cursor)`; `bestScore = none` models the JS
`-Infinity` start, and each tie consumes one value of the random
source. -/
noncomputable def selBest (bank : Bank) (s : Session) (rng : ℕ → ℝ)
    (cands : List String) : Option String :=
  match cands with
  | [] => none
  | c0 :: _ =>
    let st := cands.foldl (fun (st : String × Option ℝ × ℕ) id =>
      let score := itemScore bank s id
      match st.2.1 with
      | none => (id, some score, st.2.2)
      | some b =>
        if b + 1e-12 < score then (id, some score, st.2.2)
        else if |score - b| ≤ 1e-12 then
          ((if rng st.2.2 < 0.5 then id else st.1), some b, st.2.2 + 1)
        else st) (c0, none, 0)
    some st.1

open Classical in
/-- `selectNextItem`: eligibility filter, coverage gate, random
bootstrap for the first item, then the A-optimal loop.  `rng` models
the session random source (`s.rng()` / `Math.random()`), consumed by
position. -/
noncomputable def selectNextItem (bank : Bank) (s : Session) (rng : ℕ → ℝ) :
    Option String :=
  if s.remaining.isEmpty then none
  else
    let need := coverageNeeded bank s
    let cand1 := s.remaining.filter (fun id => allowedId s id)
    if cand1.isEmpty then none
    else
      let cand2 :=
        if ¬ need.isEmpty ∧ (∃ m, bank.cat_config.min_items = some m ∧
            s.administered.length < m + need.length) then
          let c := s.remaining.filter (fun id =>
            need.contains ((lookupItem bank id).getD dummyItem).domain)
          if c.isEmpty then s.remaining else c
        else cand1
      let cand3 := cand2.filter (fun id => allowedId s id)
      if cand3.isEmpty then none
      else if s.administered.isEmpty then
        (let j : ℤ := ⌊rng 0 * (cand3.length : ℝ)⌋
         if j < 0 then none else cand3[j.toNat]?)
      else selBest bank s rng cand3

lemma foldl_invariant {α β : Type} (f : β → α → β) (P : β → Prop) (l : List α)
    (b : β) (hb : P b) (hf : ∀ st a, a ∈ l → P st → P (f st a)) :
    P (l.foldl f b) := by
  induction l generalizing b with
  | nil => exact hb
  | cons x t ih =>
    exact ih (f b x) (hf b x (by simp) hb)
      (fun st a ha hst => hf st a (by simp [ha]) hst)

lemma mem_of_getElemOpt {α : Type} (l : List α) (i : ℕ) (a : α)
    (h : l[i]? = some a) : a ∈ l := by
  induction l generalizing i with
  | nil => simp at h
  | cons x t ih =>
    cases i with
    | zero =>
      simp only [List.getElem?_cons_zero] at h
      simp [Option.some_inj.mp h]
    | succ n =>
      simp only [List.getElem?_cons_succ] at h
      exact List.mem_cons_of_mem _ (ih n h)

lemma selBest_mem (bank : Bank) (s : Session) (rng : ℕ → ℝ)
    (cands : List String) (r : String)
    (h : selBest bank s rng cands = some r) : r ∈ cands := by
  unfold selBest at h
  rcases cands with _ | ⟨c0, rest⟩
  · exact Option.noConfusion h
  · have hmem : ((c0 :: rest).foldl (fun (st : String × Option ℝ × ℕ) id =>
        let score := itemScore bank s id
        match st.2.1 with
        | none => (id, some score, st.2.2)
        | some b =>
          if b + 1e-12 < score then (id, some score, st.2.2)
          else if |score - b| ≤ 1e-12 then
            ((if rng st.2.2 < 0.5 then id else st.1), some b, st.2.2 + 1)
          else st) (c0, none, 0)).1 ∈ (c0 :: rest) := by
      apply foldl_invariant _ (fun st : String × Option ℝ × ℕ => st.1 ∈ (c0 :: rest))
      · simp
      · intro st a ha hst
        rcases st with ⟨best, bs, k⟩
        rcases bs with _ | b
        · simpa using ha
        · simp only
          split_ifs <;> simp_all
    simp only at h
    rw [← Option.some_inj.mp h]
    exact hmem

/-- The symmetric pair-exclusion adjacency built by `createSession`
from `constraints.constraints`: `adj[a][b] = adj[b][a] = true` for
every listed pair. -/
def buildAdj (cs : List (String × String)) : String → String → Bool :=
  fun a b => cs.any (fun p => (p.1 == a && p.2 == b) || (p.1 == b && p.2 == a))

/-- C5: in a session whose constraint graph contains the pair `{X, Y}`,
once `X` has been administered the selection operation can never return
`Y`: every candidate must pass `allowed`, and `Y` has administered
partner `X`. -/
theorem claim_C5_exclusion (bank : Bank) (s : Session) (rng : ℕ → ℝ)
    (cs : List (String × String)) (X Y : String)
    (hadj : s.constraints_adj = buildAdj cs)
    (hpair : (X, Y) ∈ cs ∨ (Y, X) ∈ cs)
    (hX : X ∈ askedIds s) :
    selectNextItem bank s rng ≠ some Y := by
  intro hres
  have hYX : s.constraints_adj Y X = true := by
    rw [hadj]
    unfold buildAdj
    rw [List.any_eq_true]
    rcases hpair with hp | hp
    · exact ⟨(X, Y), hp, by simp⟩
    · exact ⟨(Y, X), hp, by simp⟩
  have hnot : ¬ allowedId s Y = true := by
    unfold allowedId
    rw [List.all_eq_true]
    intro hall
    have hx := hall X hX
    rw [hYX] at hx
    simp at hx
  have hfilter : ∀ l : List String,
      Y ∈ l.filter (fun id => allowedId s id) → False := by
    intro l hl
    exact hnot (by simpa using (List.mem_filter.mp hl).2)
  simp only [selectNextItem] at hres
  split_ifs at hres
  all_goals first
    | exact Option.noConfusion hres
    | exact hfilter _ (mem_of_getElemOpt _ _ _ hres)
    | exact hfilter _ (selBest_mem bank s rng _ Y hres)

/-- Session for the C5 witness: pair `{I1, I2}` excluded, `I1` already
administered. -/
def sessC5 : Session where
  theta_vec := [0]
  Sigma := [[1]]
  se := [none]
  administered := [⟨"I1", 0, "Fatigue"⟩]
  remaining := ["I2"]
  domain_counts := fun _ => 0
  is_finished := false
  stop_reason := none
  current_item_id := none
  constraints_adj := buildAdj [("I1", "I2")]
  constraints_raw := [("I1", "I2")]

theorem claim_C5_exclusion_witness :
    sessC5.constraints_adj = buildAdj [("I1", "I2")] ∧
    (("I1", "I2") ∈ [("I1", "I2")] ∨ ("I2", "I1") ∈ [("I1", "I2")]) ∧
    "I1" ∈ askedIds sessC5 ∧
    selectNextItem bank1 sessC5 (fun _ => 0) ≠ some "I2" := by
  refine ⟨rfl, Or.inl (by simp), by simp [askedIds, sessC5], ?_⟩
  exact claim_C5_exclusion bank1 sessC5 (fun _ => 0) [("I1", "I2")] "I1" "I2"
    rfl (Or.inl (by simp)) (by simp [askedIds, sessC5])

/-! ## MAP estimator -/

/-- `needsFlip`: polarity reversal for `Physical_Function`,
`Participation`, and all `higher_theta_means === 'better'` domains. -/
def needsFlip (it : Item) : Bool :=
  it.domain == "Physical_Function" || it.domain == "Participation" || it.higherBetter

/-- The direction-corrected, clamped response index computed for one
log record: clamp to `[0, K-1]`, reflect as `K-1-resp` when the
polarity is reversed, re-clamp.  (`Math.floor` is the identity on the
integer response indices the app passes.) -/
def correctedResp (it : Item) (resp : ℤ) : ℕ :=
  let K : ℤ := it.thresholds.length + 1
  let r0 := max 0 (min (K - 1) resp)
  let r1 := if needsFlip it then max 0 (min (K - 1) (K - 1 - r0)) else r0
  r1.toNat

/-- `itemGradHess`: central-difference gradient and second derivative of
the log category probability at the observed category, step 1e-4. -/
noncomputable def itemGradHess (theta : ℝ) (it : Item) (resp : ℕ) : ℝ × ℝ :=
  let a := it.discrimination
  let b := it.thresholds
  let h : ℝ := 1e-4
  let lp0 := Real.log ((grmCatProbs theta a b).getD resp 0)
  let lpP := Real.log ((grmCatProbs (theta + h) a b).getD resp 0)
  let lpM := Real.log ((grmCatProbs (theta - h) a b).getD resp 0)
  ((lpP - lpM) / (2 * h), (lpP - 2 * lp0 + lpM) / (h * h))

/-- One administered record's contribution to the per-domain gradient
and Hessian accumulators (record skipped when its item or domain is
unknown, as in the source). -/
noncomputable def accumGH (bank : Bank) (theta : List ℝ)
    (gh : List ℝ × List ℝ) (r : Rec) : List ℝ × List ℝ :=
  match lookupItem bank r.item_id with
  | none => gh
  | some it =>
    match bank.domains.findIdx? (· == it.domain) with
    | none => gh
    | some d =>
      let resp := correctedResp it r.response
      let gradd := itemGradHess (theta.getD d 0) it resp
      (gh.1.set d (gh.1.getD d 0 + gradd.1), gh.2.set d (gh.2.getD d 0 + gradd.2))

/-- Gradient/Hessian of one Newton iteration: prior contribution
`(−prec·θ, −prec)` per domain plus every administered item's
contribution. -/
noncomputable def mapGradHess (bank : Bank) (adm : List Rec)
    (priorPrec theta : List ℝ) : List ℝ × List ℝ :=
  adm.foldl (accumGH bank theta)
    (List.zipWith (fun p t => -(p * t)) priorPrec theta,
     priorPrec.map (fun p => -p))

open Classical in
/-- One damped Newton sweep over the domains: step `−grad/(hess−0.01)`
clamped to `[−1,1]`, theta clamped to `[−4,4]`, a domain skipped when
`|hess−0.01| < 1e-8`; also returns the max `|step|` of the sweep. -/
noncomputable def newtonSweep (bank : Bank) (adm : List Rec)
    (priorPrec theta : List ℝ) : List ℝ × ℝ :=
  let gh := mapGradHess bank adm priorPrec theta
  (List.range bank.domains.length).foldl (fun (st : List ℝ × ℝ) d =>
    let denom := gh.2.getD d 0 - 0.01
    if |denom| < 1e-8 then st
    else
      let step := clamp (-1) 1 (-(gh.1.getD d 0) / denom)
      (st.1.set d (clamp (-4) 4 (theta.getD d 0 + step)), max st.2 |step|))
    (theta, 0)

open Classical in
/-- The Newton iteration (up to 50 sweeps, early exit when the largest
step is below 1e-4). -/
noncomputable def mapLoop (bank : Bank) (adm : List Rec) (priorPrec : List ℝ) :
    ℕ → List ℝ → List ℝ
  | 0, theta => theta
  | fuel + 1, theta =>
    let sw := newtonSweep bank adm priorPrec theta
    if sw.2 < 1e-4 then sw.1
    else mapLoop bank adm priorPrec fuel sw.1

open Classical in
/-- `mapUpdateTheta`: diagonal prior precisions from the prior
covariance diagonal (fallback variance 1), Newton iteration from the
current theta (nulls to 0; over `ℝ` all values are finite), and the
final clamp of every component to `[−4,4]` (the source first replaces a
non-finite component by 0, which is the identity over `ℝ`). -/
noncomputable def mapUpdateTheta (bank : Bank) (s : Session) : Session :=
  let D := bank.domains.length
  let priorVar := List.ofFn (fun i : Fin D =>
    let v := sigmaAt bank.prior_covariance i i
    if 0 < v then v else 1)
  let priorPrec := priorVar.map (fun v => 1 / v)
  let theta0 := List.ofFn (fun i : Fin D => s.theta_vec.getD i 0)
  let thetaF := mapLoop bank s.administered priorPrec 50 theta0
  { s with theta_vec := thetaF.map (fun t => clamp (-4) 4 t) }

/-- C1: every component of theta produced by the MAP update lies in
`[−4, 4]` — the final pass clamps each component (and its non-finite ↦ 0
repair is the identity over the real-number model), for every session
and every bank. -/
theorem claim_C1_theta_bounded (bank : Bank) (s : Session) :
    ∀ t ∈ (mapUpdateTheta bank s).theta_vec, -4 ≤ t ∧ t ≤ 4 := by
  intro t ht
  simp only [mapUpdateTheta, List.mem_map] at ht
  obtain ⟨x, _, hx⟩ := ht
  rw [← hx]
  unfold clamp
  exact ⟨le_max_left _ _, max_le (by norm_num) (min_le_left _ _)⟩

/-! ### Analysis of a single-domain MAP step (claim C6) -/

lemma logistic_eq_of (x : ℝ) (h1 : x ≤ 35) (h2 : -35 ≤ x) :
    logistic x = 1 / (1 + Real.exp (-x)) := by
  unfold logistic
  rw [if_neg (by linarith), if_neg (by linarith)]

lemma logistic_pos (x : ℝ) (h1 : x ≤ 35) (h2 : -35 ≤ x) : 0 < logistic x := by
  rw [logistic_eq_of x h1 h2]
  positivity

lemma one_sub_logistic_pos (x : ℝ) (h1 : x ≤ 35) (h2 : -35 ≤ x) :
    0 < 1 - logistic x := by
  rw [logistic_eq_of x h1 h2]
  rw [sub_pos, div_lt_one (by positivity)]
  nlinarith [Real.exp_pos (-x)]

lemma logistic_strict (x y : ℝ) (hx : -35 ≤ x) (hy : y ≤ 35) (hxy : x < y) :
    logistic x < logistic y := by
  rw [logistic_eq_of x (by linarith) hx, logistic_eq_of y hy (by linarith)]
  rw [div_lt_div_iff (by positivity) (by positivity)]
  have : Real.exp (-y) < Real.exp (-x) := Real.exp_lt_exp.mpr (by linarith)
  linarith

lemma two_le_exp_add_exp_neg (h : ℝ) : 2 ≤ Real.exp h + Real.exp (-h) := by
  have huv : Real.exp (h / 2) * Real.exp (-(h / 2)) = 1 := by
    rw [← Real.exp_add]
    norm_num
  have hu2 : Real.exp (h / 2) * Real.exp (h / 2) = Real.exp h := by
    rw [← Real.exp_add]
    norm_num
  have hv2 : Real.exp (-(h / 2)) * Real.exp (-(h / 2)) = Real.exp (-h) := by
    rw [← Real.exp_add]
    congr 1
    ring
  nlinarith [sq_nonneg (Real.exp (h / 2) - Real.exp (-(h / 2)))]

/-- Key convexity fact: `(1+e^{−t})² ≤ (1+e^{−(t+h)})(1+e^{−(t−h)})`. -/
lemma one_add_exp_sq_le (t h : ℝ) :
    (1 + Real.exp (-t)) ^ 2 ≤
      (1 + Real.exp (-(t + h))) * (1 + Real.exp (-(t - h))) := by
  have hAB : Real.exp (-(t + h)) * Real.exp (-(t - h)) =
      Real.exp (-t) * Real.exp (-t) := by
    rw [← Real.exp_add, ← Real.exp_add]
    ring_nf
  have hA : Real.exp (-(t + h)) = Real.exp (-t) * Real.exp (-h) := by
    rw [← Real.exp_add]
    ring_nf
  have hB : Real.exp (-(t - h)) = Real.exp (-t) * Real.exp h := by
    rw [← Real.exp_add]
    ring_nf
  have hsum : 2 * Real.exp (-t) ≤ Real.exp (-(t + h)) + Real.exp (-(t - h)) := by
    rw [hA, hB]
    have := two_le_exp_add_exp_neg h
    nlinarith [Real.exp_pos (-t)]
  nlinarith [Real.exp_pos (-t)]

/-- Log-concavity across the central-difference stencil:
`σ(t+h)·σ(t−h) ≤ σ(t)²` (inside the non-saturated range). -/
lemma sig_prod_le (t h : ℝ) (hb1 : -35 ≤ t - h) (hb2 : t + h ≤ 35)
    (hb3 : -35 ≤ t + h) (hb4 : t - h ≤ 35) (hb5 : -35 ≤ t) (hb6 : t ≤ 35) :
    logistic (t + h) * logistic (t - h) ≤ logistic t ^ 2 := by
  rw [logistic_eq_of _ hb2 hb3, logistic_eq_of _ hb4 hb1,
    logistic_eq_of _ hb6 hb5]
  rw [div_mul_div_comm, div_pow, one_mul, one_pow]
  apply div_le_div_of_nonneg_left (by norm_num) (by positivity)
  exact one_add_exp_sq_le t h

/-- The mirrored fact for the lowest category:
`(1−σ(t+h))(1−σ(t−h)) ≤ (1−σ(t))²`. -/
lemma one_sub_sig_prod_le (t h : ℝ) (hb1 : -35 ≤ t - h) (hb2 : t + h ≤ 35)
    (hb3 : -35 ≤ t + h) (hb4 : t - h ≤ 35) (hb5 : -35 ≤ t) (hb6 : t ≤ 35) :
    (1 - logistic (t + h)) * (1 - logistic (t - h)) ≤ (1 - logistic t) ^ 2 := by
  rw [logistic_eq_of _ hb2 hb3, logistic_eq_of _ hb4 hb1,
    logistic_eq_of _ hb6 hb5]
  have e1 : (1:ℝ) - 1 / (1 + Real.exp (-(t + h))) =
      Real.exp (-(t + h)) / (1 + Real.exp (-(t + h))) := by
    field_simp
  have e2 : (1:ℝ) - 1 / (1 + Real.exp (-(t - h))) =
      Real.exp (-(t - h)) / (1 + Real.exp (-(t - h))) := by
    field_simp
  have e3 : (1:ℝ) - 1 / (1 + Real.exp (-t)) =
      Real.exp (-t) / (1 + Real.exp (-t)) := by
    field_simp
  rw [e1, e2, e3, div_mul_div_comm, div_pow]
  have hAB : Real.exp (-(t + h)) * Real.exp (-(t - h)) =
      Real.exp (-t) ^ 2 := by
    rw [← Real.exp_add]
    rw [sq, ← Real.exp_add]
    ring_nf
  rw [hAB]
  apply div_le_div_of_nonneg_left (by positivity) (by positivity)
  exact one_add_exp_sq_le t h

/-- Numerical gradient of `log σ` for the top category of the C6 item. -/
noncomputable def gHi (t : ℝ) : ℝ :=
  (Real.log (logistic (t + 1e-4)) - Real.log (logistic (t - 1e-4))) / (2 * 1e-4)

/-- Numerical second derivative of `log σ` for the top category. -/
noncomputable def hHi (t : ℝ) : ℝ :=
  (Real.log (logistic (t + 1e-4)) - 2 * Real.log (logistic t) +
    Real.log (logistic (t - 1e-4))) / (1e-4 * 1e-4)

/-- Numerical gradient of `log (1−σ)` for the bottom category. -/
noncomputable def gLo (t : ℝ) : ℝ :=
  (Real.log (1 - logistic (t + 1e-4)) - Real.log (1 - logistic (t - 1e-4))) /
    (2 * 1e-4)

/-- Numerical second derivative of `log (1−σ)` for the bottom category. -/
noncomputable def hLo (t : ℝ) : ℝ :=
  (Real.log (1 - logistic (t + 1e-4)) - 2 * Real.log (1 - logistic t) +
    Real.log (1 - logistic (t - 1e-4))) / (1e-4 * 1e-4)

lemma gHi_pos (t : ℝ) (h1 : -4 ≤ t) (h2 : t ≤ 4) : 0 < gHi t := by
  unfold gHi
  apply div_pos _ (by norm_num)
  rw [sub_pos]
  apply Real.log_lt_log (logistic_pos _ (by linarith) (by linarith))
  exact logistic_strict _ _ (by linarith) (by linarith) (by linarith)

lemma hHi_nonpos (t : ℝ) (h1 : -4 ≤ t) (h2 : t ≤ 4) : hHi t ≤ 0 := by
  unfold hHi
  apply div_nonpos_of_nonpos_of_nonneg _ (by norm_num)
  have hp1 : 0 < logistic (t + 1e-4) := logistic_pos _ (by linarith) (by linarith)
  have hp2 : 0 < logistic (t - 1e-4) := logistic_pos _ (by linarith) (by linarith)
  have hp0 : 0 < logistic t := logistic_pos _ (by linarith) (by linarith)
  have hkey := sig_prod_le t 1e-4 (by linarith) (by linarith) (by linarith)
    (by linarith) (by linarith) (by linarith)
  have hlog := (Real.log_le_log_iff (by positivity) (by positivity)).mpr hkey
  rw [Real.log_mul (ne_of_gt hp1) (ne_of_gt hp2), Real.log_pow] at hlog
  push_cast at hlog
  linarith

lemma gLo_neg (t : ℝ) (h1 : -4 ≤ t) (h2 : t ≤ 4) : gLo t < 0 := by
  unfold gLo
  apply div_neg_of_neg_of_pos _ (by norm_num)
  rw [sub_neg]
  apply Real.log_lt_log (one_sub_logistic_pos _ (by linarith) (by linarith))
  have := logistic_strict (t - 1e-4) (t + 1e-4) (by linarith) (by linarith)
    (by linarith)
  linarith

lemma hLo_nonpos (t : ℝ) (h1 : -4 ≤ t) (h2 : t ≤ 4) : hLo t ≤ 0 := by
  unfold hLo
  apply div_nonpos_of_nonpos_of_nonneg _ (by norm_num)
  have hp1 : 0 < 1 - logistic (t + 1e-4) :=
    one_sub_logistic_pos _ (by linarith) (by linarith)
  have hp2 : 0 < 1 - logistic (t - 1e-4) :=
    one_sub_logistic_pos _ (by linarith) (by linarith)
  have hp0 : 0 < 1 - logistic t := one_sub_logistic_pos _ (by linarith) (by linarith)
  have hkey := one_sub_sig_prod_le t 1e-4 (by linarith) (by linarith) (by linarith)
    (by linarith) (by linarith) (by linarith)
  have hlog := (Real.log_le_log_iff (by positivity) (by positivity)).mpr hkey
  rw [Real.log_mul (ne_of_gt hp1) (ne_of_gt hp2), Real.log_pow] at hlog
  push_cast at hlog
  linarith

lemma clamp_le_hi (lo hi x : ℝ) (h : lo ≤ hi) : clamp lo hi x ≤ hi :=
  max_le h (min_le_left _ _)

lemma lo_le_clamp (lo hi x : ℝ) : lo ≤ clamp lo hi x := le_max_left _ _

lemma clamp_pos_of_pos (x : ℝ) (hx : 0 < x) : 0 < clamp (-4) 4 x :=
  lt_of_lt_of_le (lt_min (by norm_num) hx) (le_max_right _ _)

lemma clamp_neg_of_neg (x : ℝ) (hx : x < 0) : clamp (-4) 4 x < 0 := by
  unfold clamp
  rw [min_eq_right (by linarith)]
  exact max_lt (by norm_num) hx

/-- Generic positivity of one damped Newton update from a non-negative
starting point, for gradient `−t + G` with `G > 0` and Hessian
`−1 + H − 0.01` with `H ≤ 0`. -/
lemma newton_step_pos (t G H : ℝ) (ht0 : 0 ≤ t) (ht4 : t ≤ 4)
    (hG : 0 < G) (hH : H ≤ 0) :
    0 < clamp (-4) 4 (t + clamp (-1) 1 (-(-t + G) / (-1 + H - 0.01))) ∧
    clamp (-4) 4 (t + clamp (-1) 1 (-(-t + G) / (-1 + H - 0.01))) ≤ 4 := by
  refine ⟨?_, clamp_le_hi _ _ _ (by norm_num)⟩
  have hc : (1.01 : ℝ) ≤ 1.01 - H := by linarith
  have hcpos : (0 : ℝ) < 1.01 - H := by linarith
  have heq : -(-t + G) / (-1 + H - 0.01) = (G - t) / (1.01 - H) := by
    rw [show (-1 + H - 0.01 : ℝ) = -(1.01 - H) by ring, div_neg]
    ring
  rw [heq]
  rcases le_or_lt 1 ((G - t) / (1.01 - H)) with hbig | hrest
  · rw [show clamp (-1) 1 ((G - t) / (1.01 - H)) = 1 by
      unfold clamp
      rw [min_eq_left hbig]
      exact max_eq_right (by norm_num)]
    exact clamp_pos_of_pos _ (by linarith)
  · rcases le_or_lt ((G - t) / (1.01 - H)) (-1) with hneg | hmid
    · rw [show clamp (-1) 1 ((G - t) / (1.01 - H)) = -1 by
        unfold clamp
        rw [min_eq_right (by linarith)]
        exact max_eq_left hneg]
      have : G - t ≤ -1 * (1.01 - H) := (div_le_iff hcpos).mp hneg
      apply clamp_pos_of_pos
      nlinarith
    · rw [show clamp (-1) 1 ((G - t) / (1.01 - H)) = (G - t) / (1.01 - H) by
        unfold clamp
        rw [min_eq_right hrest.le]
        exact max_eq_right hmid.le]
      apply clamp_pos_of_pos
      have hkey : 0 < (t * ((1.01 - H) - 1) + G) / (1.01 - H) := by
        apply div_pos _ hcpos
        nlinarith
      have heq2 : t + (G - t) / (1.01 - H) =
          (t * ((1.01 - H) - 1) + G) / (1.01 - H) := by
        field_simp
        ring
      rw [heq2]
      exact hkey

/-- Mirror image: one damped Newton update from a non-positive starting
point with gradient `−t + G`, `G < 0`, stays strictly negative. -/
lemma newton_step_neg (t G H : ℝ) (ht0 : t ≤ 0) (ht4 : -4 ≤ t)
    (hG : G < 0) (hH : H ≤ 0) :
    clamp (-4) 4 (t + clamp (-1) 1 (-(-t + G) / (-1 + H - 0.01))) < 0 ∧
    -4 ≤ clamp (-4) 4 (t + clamp (-1) 1 (-(-t + G) / (-1 + H - 0.01))) := by
  refine ⟨?_, lo_le_clamp _ _ _⟩
  have hcpos : (0 : ℝ) < 1.01 - H := by linarith
  have heq : -(-t + G) / (-1 + H - 0.01) = (G - t) / (1.01 - H) := by
    rw [show (-1 + H - 0.01 : ℝ) = -(1.01 - H) by ring, div_neg]
    ring
  rw [heq]
  rcases le_or_lt 1 ((G - t) / (1.01 - H)) with hbig | hrest
  · rw [show clamp (-1) 1 ((G - t) / (1.01 - H)) = 1 by
      unfold clamp
      rw [min_eq_left hbig]
      exact max_eq_right (by norm_num)]
    have : 1 * (1.01 - H) ≤ G - t := (le_div_iff hcpos).mp hbig
    apply clamp_neg_of_neg
    nlinarith
  · rcases le_or_lt ((G - t) / (1.01 - H)) (-1) with hneg | hmid
    · rw [show clamp (-1) 1 ((G - t) / (1.01 - H)) = -1 by
        unfold clamp
        rw [min_eq_right (by linarith)]
        exact max_eq_left hneg]
      apply clamp_neg_of_neg
      linarith
    · rw [show clamp (-1) 1 ((G - t) / (1.01 - H)) = (G - t) / (1.01 - H) by
        unfold clamp
        rw [min_eq_right hrest.le]
        exact max_eq_right hmid.le]
      apply clamp_neg_of_neg
      have heq2 : t + (G - t) / (1.01 - H) =
          (t * ((1.01 - H) - 1) + G) / (1.01 - H) := by
        field_simp
        ring
      rw [heq2]
      apply div_neg_of_neg_of_pos _ hcpos
      nlinarith

lemma lookup_I1 : lookupItem bank1 "I1" = some ⟨"Fatigue", 1, [0], false⟩ := rfl

lemma idx_Fat : bank1.domains.findIdx? (· == "Fatigue") = some 0 := rfl

lemma grm_getD1 (x : ℝ) : (grmCatProbs x 1 [0]).getD 1 0 = logistic x := by
  simp [grmCatProbs, grmPge]

lemma grm_getD0 (x : ℝ) : (grmCatProbs x 1 [0]).getD 0 0 = 1 - logistic x := by
  simp [grmCatProbs, grmPge]

lemma itemGradHess_high (t : ℝ) :
    itemGradHess t ⟨"Fatigue", 1, [0], false⟩ 1 = (gHi t, hHi t) := by
  simp only [itemGradHess, grm_getD1]
  rw [gHi, hHi]

lemma itemGradHess_low (t : ℝ) :
    itemGradHess t ⟨"Fatigue", 1, [0], false⟩ 0 = (gLo t, hLo t) := by
  simp only [itemGradHess, grm_getD0]
  rw [gLo, hLo]

lemma correctedResp_high : correctedResp ⟨"Fatigue", 1, [0], false⟩ 1 = 1 := rfl

lemma correctedResp_low : correctedResp ⟨"Fatigue", 1, [0], false⟩ 0 = 0 := rfl

lemma mapGradHess_high (t : ℝ) :
    mapGradHess bank1 [⟨"I1", 1, "Fatigue"⟩] [1] [t] =
      ([-t + gHi t], [-1 + hHi t]) := by
  simp only [mapGradHess, List.foldl_cons, List.foldl_nil, accumGH, lookup_I1,
    idx_Fat, correctedResp_high, itemGradHess_high]
  simp [List.set]

lemma mapGradHess_low (t : ℝ) :
    mapGradHess bank1 [⟨"I1", 0, "Fatigue"⟩] [1] [t] =
      ([-t + gLo t], [-1 + hLo t]) := by
  simp only [mapGradHess, List.foldl_cons, List.foldl_nil, accumGH, lookup_I1,
    idx_Fat, correctedResp_low, itemGradHess_low]
  simp [List.set]

lemma sweep_high (t : ℝ) (h0 : 0 ≤ t) (h4 : t ≤ 4) :
    ∃ u, (newtonSweep bank1 [⟨"I1", 1, "Fatigue"⟩] [1] [t]).1 = [u] ∧
      0 < u ∧ u ≤ 4 := by
  have hG := gHi_pos t (by linarith) h4
  have hH := hHi_nonpos t (by linarith) h4
  have hden : ¬ |(-1 + hHi t) - 0.01| < 1e-8 := by
    rw [abs_of_neg (by linarith : (-1 + hHi t) - 0.01 < 0)]
    exact not_lt.mpr (by linarith)
  refine ⟨clamp (-4) 4 (t + clamp (-1) 1 (-(-t + gHi t) / (-1 + hHi t - 0.01))),
    ?_, ?_, ?_⟩
  · simp only [newtonSweep, mapGradHess_high]
    have hlen : bank1.domains.length = 1 := rfl
    rw [hlen, show List.range 1 = [0] from rfl, List.foldl_cons, List.foldl_nil]
    simp only [List.getD_cons_zero]
    rw [if_neg (by simpa using hden)]
    simp [List.set]
  · exact (newton_step_pos t (gHi t) (hHi t) h0 h4 hG hH).1
  · exact (newton_step_pos t (gHi t) (hHi t) h0 h4 hG hH).2

lemma sweep_low (t : ℝ) (h0 : t ≤ 0) (h4 : -4 ≤ t) :
    ∃ u, (newtonSweep bank1 [⟨"I1", 0, "Fatigue"⟩] [1] [t]).1 = [u] ∧
      u < 0 ∧ -4 ≤ u := by
  have hG := gLo_neg t h4 (by linarith)
  have hH := hLo_nonpos t h4 (by linarith)
  have hden : ¬ |(-1 + hLo t) - 0.01| < 1e-8 := by
    rw [abs_of_neg (by linarith : (-1 + hLo t) - 0.01 < 0)]
    exact not_lt.mpr (by linarith)
  refine ⟨clamp (-4) 4 (t + clamp (-1) 1 (-(-t + gLo t) / (-1 + hLo t - 0.01))),
    ?_, ?_, ?_⟩
  · simp only [newtonSweep, mapGradHess_low]
    have hlen : bank1.domains.length = 1 := rfl
    rw [hlen, show List.range 1 = [0] from rfl, List.foldl_cons, List.foldl_nil]
    simp only [List.getD_cons_zero]
    rw [if_neg (by simpa using hden)]
    simp [List.set]
  · exact (newton_step_neg t (gLo t) (hLo t) h0 h4 hG hH).1
  · exact (newton_step_neg t (gLo t) (hLo t) h0 h4 hG hH).2

lemma mapLoop_succ (bank : Bank) (adm : List Rec) (pp : List ℝ) (fuel : ℕ)
    (theta : List ℝ) :
    mapLoop bank adm pp (fuel + 1) theta =
      (if (newtonSweep bank adm pp theta).2 < 1e-4 then
        (newtonSweep bank adm pp theta).1
      else mapLoop bank adm pp fuel (newtonSweep bank adm pp theta).1) := rfl

lemma loop_high (fuel : ℕ) : ∀ t : ℝ, 0 < t → t ≤ 4 →
    ∃ u, mapLoop bank1 [⟨"I1", 1, "Fatigue"⟩] [1] fuel [t] = [u] ∧
      0 < u ∧ u ≤ 4 := by
  induction fuel with
  | zero =>
    intro t ht h4
    exact ⟨t, rfl, ht, h4⟩
  | succ n ih =>
    intro t ht h4
    obtain ⟨u, hu, hu0, hu4⟩ := sweep_high t ht.le h4
    rw [mapLoop_succ, hu]
    split_ifs
    · exact ⟨u, rfl, hu0, hu4⟩
    · exact ih u hu0 hu4

lemma loop_low (fuel : ℕ) : ∀ t : ℝ, t < 0 → -4 ≤ t →
    ∃ u, mapLoop bank1 [⟨"I1", 0, "Fatigue"⟩] [1] fuel [t] = [u] ∧
      u < 0 ∧ -4 ≤ u := by
  induction fuel with
  | zero =>
    intro t ht h4
    exact ⟨t, rfl, ht, h4⟩
  | succ n ih =>
    intro t ht h4
    obtain ⟨u, hu, hu0, hu4⟩ := sweep_low t ht.le h4
    rw [mapLoop_succ, hu]
    split_ifs
    · exact ⟨u, rfl, hu0, hu4⟩
    · exact ih u hu0 hu4

lemma loop50_high :
    ∃ u, mapLoop bank1 [⟨"I1", 1, "Fatigue"⟩] [1] 50 [0] = [u] ∧
      0 < u ∧ u ≤ 4 := by
  obtain ⟨u, hu, hu0, hu4⟩ := sweep_high 0 le_rfl (by norm_num)
  rw [show (50 : ℕ) = 49 + 1 from rfl, mapLoop_succ]
  rw [hu]
  split_ifs
  · exact ⟨u, rfl, hu0, hu4⟩
  · exact loop_high 49 u hu0 hu4

lemma loop50_low :
    ∃ u, mapLoop bank1 [⟨"I1", 0, "Fatigue"⟩] [1] 50 [0] = [u] ∧
      u < 0 ∧ -4 ≤ u := by
  obtain ⟨u, hu, hu0, hu4⟩ := sweep_low 0 le_rfl (by norm_num)
  rw [show (50 : ℕ) = 49 + 1 from rfl, mapLoop_succ]
  rw [hu]
  split_ifs
  · exact ⟨u, rfl, hu0, hu4⟩
  · exact loop_low 49 u hu0 hu4

lemma mapUpdate_bank1 (s : Session) :
    (mapUpdateTheta bank1 s).theta_vec =
      (mapLoop bank1 s.administered [1] 50 [s.theta_vec.getD 0 0]).map
        (fun t => clamp (-4) 4 t) := by
  simp only [mapUpdateTheta]
  have hlen : bank1.domains.length = 1 := rfl
  have hpv : List.ofFn (fun i : Fin bank1.domains.length =>
      let v := sigmaAt bank1.prior_covariance i i
      if 0 < v then v else 1) = [1] := by
    rw [show bank1.prior_covariance = [[1]] from rfl]
    simp [hlen, List.ofFn_succ, sigmaAt_single]
  have ht0 : List.ofFn (fun i : Fin bank1.domains.length =>
      s.theta_vec.getD i 0) = [s.theta_vec.getD 0 0] := by
    simp [hlen, List.ofFn_succ]
  rw [hpv, ht0]
  norm_num

/-- C6: single domain, prior variance 1, one administered item with
`a = 1`, one threshold at 0 and no polarity reversal, starting from
theta 0: after the MAP re-estimation, answering the highest category
yields an estimate strictly above 0, and answering the lowest category
one strictly below 0. -/
theorem claim_C6_direction :
    0 < (mapUpdateTheta bank1
      { sess1 with administered := [⟨"I1", 1, "Fatigue"⟩] }).theta_vec.getD 0 0 ∧
    (mapUpdateTheta bank1
      { sess1 with administered := [⟨"I1", 0, "Fatigue"⟩] }).theta_vec.getD 0 0 < 0 := by
  constructor
  · rw [mapUpdate_bank1]
    obtain ⟨u, hu, hu0, hu4⟩ := loop50_high
    have : ({ sess1 with administered := [⟨"I1", 1, "Fatigue"⟩] } :
        Session).theta_vec.getD 0 0 = 0 := rfl
    rw [this]
    rw [show ({ sess1 with administered := [⟨"I1", 1, "Fatigue"⟩]} :
      Session).administered = [⟨"I1", 1, "Fatigue"⟩] from rfl]
    rw [hu]
    simpa using clamp_pos_of_pos u hu0
  · rw [mapUpdate_bank1]
    obtain ⟨u, hu, hu0, hu4⟩ := loop50_low
    have : ({ sess1 with administered := [⟨"I1", 0, "Fatigue"⟩] } :
        Session).theta_vec.getD 0 0 = 0 := rfl
    rw [this]
    rw [show ({ sess1 with administered := [⟨"I1", 0, "Fatigue"⟩]} :
      Session).administered = [⟨"I1", 0, "Fatigue"⟩] from rfl]
    rw [hu]
    simpa using clamp_neg_of_neg u hu0

/-! ## Session controller -/

open Classical in
/-- `createSession`: zeroed theta, prior covariance copy, empty log,
full remaining pool, constraint adjacency, first item selection, then
initial standard errors.  (Construction metadata — version string,
creation timestamp, constraint count — is not modelled; the JS
null-check warning loop over the just-created zero vector can never
fire, so it emits nothing and `warnings` starts empty.) -/
noncomputable def createSession (bank : Bank)
    (constraints : List (String × String)) (rng : ℕ → ℝ) : Session :=
  let D := bank.domains.length
  let s0 : Session :=
    { theta_vec := List.replicate D 0
      Sigma := bank.prior_covariance
      se := List.replicate D none
      administered := []
      remaining := bank.items.map (fun p => p.1)
      domain_counts := fun _ => 0
      is_finished := false
      stop_reason := none
      current_item_id := none
      constraints_adj := buildAdj constraints
      constraints_raw := constraints }
  let s1 := { s0 with current_item_id := selectNextItem bank s0 rng }
  updateSE bank s1

open Classical in
/-- `severityBand` on the norms-absent path: SD cutoffs on theta. -/
noncomputable def severityBand (theta : ℝ) : String :=
  if theta ≤ -1 then "Low"
  else if theta < 1 then "Typical"
  else if theta < 2 then "High"
  else "Very high"

/-- `finish`: freeze the session, refresh standard errors, and build
the Results value.  Modelled for the norms-absent path the repository
ships (README: no constraints/norms bundled): `toPercentile` returns
`null` immediately when no norm entry exists and `severityBand` falls
back to SD cutoffs; the display-only `stem` and response-option label
lookups reduce to the raw stored index exactly as in the source when an
item carries no display metadata. -/
noncomputable def finish (bank : Bank) (s : Session) (reason : Option String) :
    Session :=
  let s1 := { s with
    is_finished := true
    stop_reason := some (reason.getD (s.stop_reason.getD "finished")) }
  let s2 := updateSE bank s1
  let domainResults := (List.range bank.domains.length).map (fun i =>
    let theta := s2.theta_vec.getD i 0
    ({ domain := bank.domains.getD i ""
       theta := theta
       se := s2.se.getD i none
       t_score := 50 + 10 * theta
       percentile := none
       severity := severityBand theta } : DomainResult))
  let itemsAdmin := s2.administered.map (fun r =>
    (r.item_id,
     ((lookupItem bank r.item_id).map (fun it => it.domain)).getD r.domain,
     r.response))
  { s2 with
    global_SE := globalSE s2
    results := some
      { total_items := s2.administered.length
        stop_reason := s2.stop_reason
        global_SE := globalSE s2
        domain_results := domainResults
        items_administered := itemsAdmin } }

/-- The record/count/pool update at the top of `answer` (push the
Response Record, bump the domain count, drop the item from
`remaining`). -/
noncomputable def answerRecord (bank : Bank) (s : Session) (itemId : String)
    (responseIdx : ℤ) : Session :=
  let item := (lookupItem bank itemId).getD dummyItem
  { s with
    administered := s.administered ++ [⟨itemId, responseIdx, item.domain⟩]
    domain_counts := fun d =>
      if d = item.domain then s.domain_counts d + 1 else s.domain_counts d
    remaining := s.remaining.filter (fun id => id ≠ itemId) }

open Classical in
/-- `answer(itemId, responseIdx)`: record the response, run the
covariance update, the SE refresh, and the MAP re-estimation, then the
stop cascade; on stop finish, otherwise select the next item or finish
with `"bank_exhausted"` when none is selectable.  The source never
checks `is_finished` here. -/
noncomputable def answer (bank : Bank) (s : Session) (itemId : String)
    (responseIdx : ℤ) (rng : ℕ → ℝ) : Session :=
  let item := (lookupItem bank itemId).getD dummyItem
  let s1 := answerRecord bank s itemId responseIdx
  let s2 := updatePosteriorCov bank s1 item
  let s3 := updateSE bank s2
  let s4 := mapUpdateTheta bank s3
  let stop := checkStop bank s4
  if stop.1 = true then
    finish bank s4 (some ((stop.2).getD (s4.stop_reason.getD "finished")))
  else
    match selectNextItem bank s4 rng with
    | none =>
      finish bank { s4 with current_item_id := none } (some "bank_exhausted")
    | some id => { s4 with current_item_id := some id }

open Classical in
/-- `nextItem`: returns the pending item (selecting one when absent)
without recording anything; refuses finished sessions. -/
noncomputable def nextItem (bank : Bank) (s : Session) (rng : ℕ → ℝ) :
    Option Item × Session :=
  if s.is_finished = true then (none, s)
  else
    match s.current_item_id with
    | some id => (lookupItem bank id, s)
    | none =>
      match selectNextItem bank s rng with
      | none =>
        (none, finish bank s (some (s.stop_reason.getD "bank_exhausted")))
      | some nid => (lookupItem bank nid, { s with current_item_id := some nid })

/-- Replaying a response log through `answer`, one random source per
step. -/
noncomputable def answerSeq (bank : Bank) (s : Session)
    (log : List (String × ℤ)) (rngs : ℕ → ℕ → ℝ) : Session :=
  match log with
  | [] => s
  | p :: rest =>
    answerSeq bank (answer bank s p.1 p.2 (rngs 0)) rest (fun n => rngs (n + 1))

/-- The replay loop of `backOne` (stops early if a replayed answer
finishes the session). -/
noncomputable def replayAnswers (bank : Bank) :
    Session → List Rec → (ℕ → ℕ → ℝ) → Session
  | s, [], _ => s
  | s, a :: rest, rngs =>
    let s1 := answer bank s a.item_id a.response (rngs 0)
    if s1.is_finished = true then s1
    else replayAnswers bank s1 rest (fun n => rngs (n + 1))

/-- `backOne`: rebuild a fresh session and replay all but the last
Response Record (the session-reset statements of the source restore the
fresh-session fields; `se` and the pending item keep their
`createSession` values exactly as in the source). -/
noncomputable def backOne (bank : Bank) (s : Session) (rngs : ℕ → ℕ → ℝ) :
    Session :=
  if s.administered.isEmpty then s
  else
    let s0 := createSession bank s.constraints_raw (rngs 0)
    let s1 := { s0 with
      administered := []
      remaining := bank.items.map (fun p => p.1)
      domain_counts := fun _ => 0
      theta_vec := List.replicate bank.domains.length 0
      Sigma := bank.prior_covariance
      is_finished := false
      stop_reason := none }
    replayAnswers bank s1 s.administered.dropLast (fun n => rngs (n + 1))

@[simp] lemma updatePosteriorCov_theta (bank : Bank) (s : Session) (it : Item) :
    (updatePosteriorCov bank s it).theta_vec = s.theta_vec := rfl

@[simp] lemma updatePosteriorCov_administered (bank : Bank) (s : Session)
    (it : Item) : (updatePosteriorCov bank s it).administered = s.administered :=
  rfl

@[simp] lemma updatePosteriorCov_warnings (bank : Bank) (s : Session)
    (it : Item) : (updatePosteriorCov bank s it).warnings = s.warnings := rfl

@[simp] lemma updateSE_theta (bank : Bank) (s : Session) :
    (updateSE bank s).theta_vec = s.theta_vec := rfl

@[simp] lemma updateSE_Sigma (bank : Bank) (s : Session) :
    (updateSE bank s).Sigma = s.Sigma := rfl

@[simp] lemma updateSE_administered (bank : Bank) (s : Session) :
    (updateSE bank s).administered = s.administered := rfl

@[simp] lemma updateSE_warnings (bank : Bank) (s : Session) :
    (updateSE bank s).warnings = s.warnings := rfl

@[simp] lemma mapUpdateTheta_Sigma (bank : Bank) (s : Session) :
    (mapUpdateTheta bank s).Sigma = s.Sigma := rfl

@[simp] lemma mapUpdateTheta_administered (bank : Bank) (s : Session) :
    (mapUpdateTheta bank s).administered = s.administered := rfl

@[simp] lemma mapUpdateTheta_warnings (bank : Bank) (s : Session) :
    (mapUpdateTheta bank s).warnings = s.warnings := rfl

@[simp] lemma finish_theta (bank : Bank) (s : Session) (r : Option String) :
    (finish bank s r).theta_vec = s.theta_vec := rfl

@[simp] lemma finish_Sigma (bank : Bank) (s : Session) (r : Option String) :
    (finish bank s r).Sigma = s.Sigma := rfl

@[simp] lemma finish_administered (bank : Bank) (s : Session) (r : Option String) :
    (finish bank s r).administered = s.administered := rfl

@[simp] lemma finish_warnings (bank : Bank) (s : Session) (r : Option String) :
    (finish bank s r).warnings = s.warnings := rfl

@[simp] lemma answerRecord_theta (bank : Bank) (s : Session) (i : String)
    (r : ℤ) : (answerRecord bank s i r).theta_vec = s.theta_vec := rfl

@[simp] lemma answerRecord_Sigma (bank : Bank) (s : Session) (i : String)
    (r : ℤ) : (answerRecord bank s i r).Sigma = s.Sigma := rfl

@[simp] lemma answerRecord_warnings (bank : Bank) (s : Session) (i : String)
    (r : ℤ) : (answerRecord bank s i r).warnings = s.warnings := rfl

@[simp] lemma answerRecord_administered (bank : Bank) (s : Session) (i : String)
    (r : ℤ) : (answerRecord bank s i r).administered =
      s.administered ++ [⟨i, r, ((lookupItem bank i).getD dummyItem).domain⟩] :=
  rfl

lemma answer_theta (bank : Bank) (s : Session) (i : String) (r : ℤ)
    (rng : ℕ → ℝ) :
    (answer bank s i r rng).theta_vec =
      (mapUpdateTheta bank (updateSE bank (updatePosteriorCov bank
        (answerRecord bank s i r) ((lookupItem bank i).getD dummyItem)))).theta_vec := by
  simp only [answer]
  split
  · simp
  · split <;> simp

lemma answer_Sigma (bank : Bank) (s : Session) (i : String) (r : ℤ)
    (rng : ℕ → ℝ) :
    (answer bank s i r rng).Sigma =
      (updatePosteriorCov bank (answerRecord bank s i r)
        ((lookupItem bank i).getD dummyItem)).Sigma := by
  simp only [answer]
  split
  · simp
  · split <;> simp

lemma answer_administered (bank : Bank) (s : Session) (i : String) (r : ℤ)
    (rng : ℕ → ℝ) :
    (answer bank s i r rng).administered =
      s.administered ++ [⟨i, r, ((lookupItem bank i).getD dummyItem).domain⟩] := by
  simp only [answer]
  split
  · simp
  · split <;> simp

lemma answer_warnings (bank : Bank) (s : Session) (i : String) (r : ℤ)
    (rng : ℕ → ℝ) : (answer bank s i r rng).warnings = s.warnings := by
  simp only [answer]
  split
  · simp
  · split <;> simp

lemma updatePosteriorCov_Sigma_congr (bank : Bank) (it : Item)
    {s₁ s₂ : Session} (hT : s₁.theta_vec = s₂.theta_vec)
    (hS : s₁.Sigma = s₂.Sigma) :
    (updatePosteriorCov bank s₁ it).Sigma = (updatePosteriorCov bank s₂ it).Sigma := by
  simp only [updatePosteriorCov]
  rw [hT, hS]

lemma mapUpdateTheta_theta_congr (bank : Bank) {s₁ s₂ : Session}
    (hT : s₁.theta_vec = s₂.theta_vec)
    (hA : s₁.administered = s₂.administered) :
    (mapUpdateTheta bank s₁).theta_vec = (mapUpdateTheta bank s₂).theta_vec := by
  simp only [mapUpdateTheta]
  rw [hT, hA]

/-- One `answer` step is deterministic in theta, Sigma and the log as a
function of (bank, previous theta/Sigma/log, item, response),
independent of the random source and of every other session field. -/
lemma answer_core_eq (bank : Bank) (i : String) (r : ℤ) (rngA rngB : ℕ → ℝ)
    (s₁ s₂ : Session) (hT : s₁.theta_vec = s₂.theta_vec)
    (hS : s₁.Sigma = s₂.Sigma) (hA : s₁.administered = s₂.administered) :
    (answer bank s₁ i r rngA).theta_vec = (answer bank s₂ i r rngB).theta_vec ∧
    (answer bank s₁ i r rngA).Sigma = (answer bank s₂ i r rngB).Sigma ∧
    (answer bank s₁ i r rngA).administered =
      (answer bank s₂ i r rngB).administered := by
  have hrT : (answerRecord bank s₁ i r).theta_vec =
      (answerRecord bank s₂ i r).theta_vec := by simp [hT]
  have hrS : (answerRecord bank s₁ i r).Sigma =
      (answerRecord bank s₂ i r).Sigma := by simp [hS]
  have hrA : (answerRecord bank s₁ i r).administered =
      (answerRecord bank s₂ i r).administered := by simp [hA]
  have hSig := updatePosteriorCov_Sigma_congr bank
    ((lookupItem bank i).getD dummyItem) hrT hrS
  refine ⟨?_, ?_, ?_⟩
  · rw [answer_theta, answer_theta]
    exact mapUpdateTheta_theta_congr bank (by simp [hT]) (by simp [hA])
  · rw [answer_Sigma, answer_Sigma]
    exact hSig
  · rw [answer_administered, answer_administered, hA]

/-- C7: `answer()` updates theta and Sigma as a deterministic function
of (bank, prior theta/Sigma/log, item, response), independent of the
random sources used for tie-break/bootstrap selection: replaying any
response log from two sessions that agree on theta, Sigma and the log
— with arbitrary, possibly different random sources — produces
identical final theta, Sigma, and response logs. -/
theorem claim_C7_replay_deterministic (bank : Bank)
    (log : List (String × ℤ)) (s₁ s₂ : Session) (rngA rngB : ℕ → ℕ → ℝ)
    (hT : s₁.theta_vec = s₂.theta_vec) (hS : s₁.Sigma = s₂.Sigma)
    (hA : s₁.administered = s₂.administered) :
    (answerSeq bank s₁ log rngA).theta_vec =
      (answerSeq bank s₂ log rngB).theta_vec ∧
    (answerSeq bank s₁ log rngA).Sigma = (answerSeq bank s₂ log rngB).Sigma ∧
    (answerSeq bank s₁ log rngA).administered =
      (answerSeq bank s₂ log rngB).administered := by
  induction log generalizing s₁ s₂ rngA rngB with
  | nil => exact ⟨hT, hS, hA⟩
  | cons p rest ih =>
    obtain ⟨h1, h2, h3⟩ :=
      answer_core_eq bank p.1 p.2 (rngA 0) (rngB 0) s₁ s₂ hT hS hA
    exact ih _ _ _ _ h1 h2 h3

/-- Witness for C7: two copies of the concrete fresh session replayed
through a one-entry log with different random sources. -/
theorem claim_C7_replay_deterministic_witness :
    sess1.theta_vec = sess1.theta_vec ∧ sess1.Sigma = sess1.Sigma ∧
    sess1.administered = sess1.administered ∧
    ((answerSeq bank1 sess1 [("I1", 1)] (fun _ _ => 0)).theta_vec =
      (answerSeq bank1 sess1 [("I1", 1)] (fun _ _ => 0.7)).theta_vec ∧
    (answerSeq bank1 sess1 [("I1", 1)] (fun _ _ => 0)).Sigma =
      (answerSeq bank1 sess1 [("I1", 1)] (fun _ _ => 0.7)).Sigma ∧
    (answerSeq bank1 sess1 [("I1", 1)] (fun _ _ => 0)).administered =
      (answerSeq bank1 sess1 [("I1", 1)] (fun _ _ => 0.7)).administered) :=
  ⟨rfl, rfl, rfl, claim_C7_replay_deterministic bank1 [("I1", 1)] sess1 sess1
    (fun _ _ => 0) (fun _ _ => 0.7) rfl rfl rfl⟩

/-- A finished session used by the C8 counterexample. -/
def sessC8 : Session := { sess1 with is_finished := true }

/-- C8 counterexample: the source `answer` has no `is_finished` guard —
calling it on a finished session still appends to the response log
(and re-runs the whole estimation pipeline), so a finished session is
not immutable under `answer()`. -/
theorem claim_C8_counterexample :
    sessC8.is_finished = true ∧
    (answer bank1 sessC8 "I1" 0 (fun _ => 0)).administered ≠
      sessC8.administered := by
  refine ⟨rfl, ?_⟩
  rw [answer_administered]
  simp [sessC8, sess1]

/-- C8 (amended): `answer()` is unguarded and mutates even finished
sessions; the operation that refuses finished sessions is `nextItem`,
which returns no item and leaves the session unchanged. -/
theorem claim_C8_nextItem_guard (bank : Bank) (s : Session) (rng : ℕ → ℝ)
    (h : s.is_finished = true) : nextItem bank s rng = (none, s) := by
  simp only [nextItem]
  rw [if_pos h]

/-- Witness for the amended C8 on the concrete finished session. -/
theorem claim_C8_nextItem_guard_witness :
    sessC8.is_finished = true ∧
    nextItem bank1 sessC8 (fun _ => 0) = (none, sessC8) :=
  ⟨rfl, claim_C8_nextItem_guard bank1 sessC8 (fun _ => 0) rfl⟩

lemma correctedResp_clamp (it : Item) (r : ℤ) :
    correctedResp it (max 0 (min ((it.thresholds.length : ℤ) + 1 - 1) r)) =
      correctedResp it r := by
  simp only [correctedResp, needsFlip]
  split_ifs <;> omega

lemma accumGH_resp_clamp (bank : Bank) (theta : List ℝ)
    (gh : List ℝ × List ℝ) (i dom : String) (r : ℤ) :
    accumGH bank theta gh
      ⟨i, max 0 (min ((((lookupItem bank i).getD dummyItem).thresholds.length : ℤ)
        + 1 - 1) r), dom⟩ =
      accumGH bank theta gh ⟨i, r, dom⟩ := by
  unfold accumGH
  rcases hfound : lookupItem bank i with _ | it
  · rfl
  · simp only [Option.getD_some]
    rcases hidx : List.findIdx? (fun x => x == it.domain) bank.domains with _ | d
    · simp only [hidx]
    · simp only [hidx, correctedResp_clamp]

lemma mapGradHess_resp_clamp (bank : Bank) (adm : List Rec) (i dom : String)
    (r : ℤ) (pp theta : List ℝ) :
    mapGradHess bank (adm ++
      [⟨i, max 0 (min ((((lookupItem bank i).getD dummyItem).thresholds.length : ℤ)
        + 1 - 1) r), dom⟩]) pp theta =
      mapGradHess bank (adm ++ [⟨i, r, dom⟩]) pp theta := by
  unfold mapGradHess
  rw [List.foldl_append, List.foldl_append]
  simp only [List.foldl_cons, List.foldl_nil]
  exact accumGH_resp_clamp bank theta _ i dom r

lemma mapLoop_congr (bank : Bank) (adm₁ adm₂ : List Rec) (pp : List ℝ)
    (h : ∀ theta, mapGradHess bank adm₁ pp theta = mapGradHess bank adm₂ pp theta) :
    ∀ fuel theta, mapLoop bank adm₁ pp fuel theta =
      mapLoop bank adm₂ pp fuel theta := by
  intro fuel
  induction fuel with
  | zero => intro theta; rfl
  | succ n ih =>
    intro theta
    have hs : newtonSweep bank adm₁ pp theta = newtonSweep bank adm₂ pp theta := by
      unfold newtonSweep
      rw [h theta]
    rw [mapLoop_succ, mapLoop_succ, hs]
    split_ifs with hc
    · rfl
    · exact ih _

/-- C9 (amended): a response index outside `[0, K−1]` is recovered by
clamping before any use in estimation — `answer` with a raw index
produces exactly the same theta and Sigma as with the clamped index
(`updatePosteriorCov` never reads the response; `mapUpdateTheta` clamps
it before use) and the call is non-fatal; however **no warning is
surfaced**: the `warnings` channel (modelling `console.warn`) is left
untouched, and the only caller-visible trace is the raw index stored in
the response log. -/
theorem claim_C9_clamped_response (bank : Bank) (s : Session) (i : String)
    (r : ℤ) (rng : ℕ → ℝ) :
    (answer bank s i r rng).theta_vec =
      (answer bank s i (max 0 (min
        ((((lookupItem bank i).getD dummyItem).thresholds.length : ℤ) + 1 - 1) r))
        rng).theta_vec ∧
    (answer bank s i r rng).Sigma =
      (answer bank s i (max 0 (min
        ((((lookupItem bank i).getD dummyItem).thresholds.length : ℤ) + 1 - 1) r))
        rng).Sigma ∧
    (answer bank s i r rng).warnings = s.warnings := by
  refine ⟨?_, ?_, answer_warnings bank s i r rng⟩
  · rw [answer_theta, answer_theta]
    simp only [mapUpdateTheta, updateSE_theta, updateSE_administered,
      updatePosteriorCov_theta, updatePosteriorCov_administered,
      answerRecord_theta, answerRecord_administered]
    congr 1
    exact (mapLoop_congr bank _ _ _
      (fun theta => mapGradHess_resp_clamp bank s.administered i _ r _ theta) 50 _).symm
  · rw [answer_Sigma, answer_Sigma]
    exact (updatePosteriorCov_Sigma_congr bank _ (by simp) (by simp)).symm

/-- C9 counterexample: with `K = 2`, the out-of-range response 99 is
absorbed without any warning being surfaced to the caller — the
modelled `console.warn` channel stays empty, falsifying the
"surfaced to the caller as a warning signal" part of the claim. -/
theorem claim_C9_counterexample :
    ((2:ℤ) - 1 < 99) ∧
    (answer bank1 sess1 "I1" 99 (fun _ => 0)).warnings = [] := by
  refine ⟨by norm_num, ?_⟩
  rw [answer_warnings]
  rfl

/-- Witness for C1: a concrete component of a concrete MAP update is in
`[−4, 4]`. -/
theorem claim_C1_theta_bounded_witness :
    ∃ t, t ∈ (mapUpdateTheta bank1
        { sess1 with administered := [⟨"I1", 1, "Fatigue"⟩] }).theta_vec ∧
      (-4 ≤ t ∧ t ≤ 4) := by
  obtain ⟨u, hu, hu0, hu4⟩ := loop50_high
  have hmem : clamp (-4) 4 u ∈ (mapUpdateTheta bank1
      { sess1 with administered := [⟨"I1", 1, "Fatigue"⟩] }).theta_vec := by
    rw [mapUpdate_bank1]
    rw [show ({ sess1 with administered := [⟨"I1", 1, "Fatigue"⟩]} :
      Session).administered = [⟨"I1", 1, "Fatigue"⟩] from rfl]
    rw [show ({ sess1 with administered := [⟨"I1", 1, "Fatigue"⟩]} :
      Session).theta_vec.getD 0 0 = 0 from rfl]
    rw [hu]
    simp
  exact ⟨clamp (-4) 4 u, hmem,
    claim_C1_theta_bounded bank1
      { sess1 with administered := [⟨"I1", 1, "Fatigue"⟩] } (clamp (-4) 4 u) hmem⟩

end SpinePRO
